import Mathlib

/-!
# FailFixer core — shallow embedding and verification

This file embeds the core pipeline of the FailFixer repository
(G-code parser, layer mapper, resume generator, output validator)
as executable Lean definitions, and proves the specification claims
about them.

Conventions of the embedding:
* Python `str` values become Lean `String`; most character-level work
  happens on `List Char`.
* Python `float` values become `ℚ` (the G-code numerals involved are
  exact decimals, so rational arithmetic is the idealisation of the
  IEEE doubles used by the source).
* Python regular expressions are hand-translated into total scanning
  functions with the same matching semantics (leftmost search, greedy
  or lazy repetition as in the pattern, word boundaries).
* Python exceptions become `Except String` results.
-/

namespace FailFixer

/-! ## Character and string utilities (Python `str` semantics) -/

/-- Python `str.strip()` whitespace set (ASCII part). -/
def pyIsSpace (c : Char) : Bool :=
  c = ' ' ∨ c = '\t' ∨ c = '\n' ∨ c = '\r' ∨ c = '\x0b' ∨ c = '\x0c'

/-- Word character for the regex `\b` boundary and `\w`: `[A-Za-z0-9_]`. -/
def isWordChar (c : Char) : Bool :=
  ('A' ≤ c ∧ c ≤ 'Z') ∨ ('a' ≤ c ∧ c ≤ 'z') ∨ ('0' ≤ c ∧ c ≤ '9') ∨ c = '_'

/-- ASCII decimal digit test. -/
def isDigit (c : Char) : Bool := '0' ≤ c ∧ c ≤ '9'

/-- Uppercase a single ASCII character (Python `str.upper` on ASCII input). -/
def upChar (c : Char) : Char :=
  if 'a' ≤ c ∧ c ≤ 'z' then Char.ofNat (c.toNat - 32) else c

/-- Uppercase a character list. -/
def upList (s : List Char) : List Char := s.map upChar

/-- Python `str.strip()` on a character list. -/
def pyStripL (s : List Char) : List Char :=
  ((s.dropWhile pyIsSpace).reverse.dropWhile pyIsSpace).reverse

/-- Python `str.rstrip()` (default whitespace) on a character list. -/
def pyRstripL (s : List Char) : List Char :=
  (s.reverse.dropWhile pyIsSpace).reverse

/-- Python `str.rstrip("\n\r")` on a character list. -/
def rstripNewlineL (s : List Char) : List Char :=
  (s.reverse.dropWhile (fun c => c = '\n' ∨ c = '\r')).reverse

/-- Is `pat` a contiguous sublist of `s`?  (Python `in` on strings.) -/
def containsSub (pat s : List Char) : Bool :=
  match s with
  | [] => pat.isEmpty
  | _ :: rest => pat.isPrefixOf s || containsSub pat rest

/-- Digit-run parser: value of a maximal run `\d+` together with the rest.
Returns `none` when the first character is not a digit. -/
def digitRun : List Char → Option (ℕ × ℕ × List Char)
  | [] => none
  | c :: rest =>
    if isDigit c then
      match digitRun rest with
      | some (v, k, r) => some ((c.toNat - '0'.toNat) * 10 ^ k + v, k + 1, r)
      | none => some (c.toNat - '0'.toNat, 1, rest)
    else none

/-- Parse the regex group `\d+\.?\d*` (unsigned decimal numeral, at least one
integer digit, optional point, optional fraction digits) returning its exact
rational value and the rest of the input. -/
def parseUnsigned (s : List Char) : Option (ℚ × List Char) :=
  match digitRun s with
  | none => none
  | some (ip, _, r1) =>
    match r1 with
    | '.' :: r2 =>
      match digitRun r2 with
      | some (fp, k, r3) => some ((ip : ℚ) + (fp : ℚ) / (10 : ℚ) ^ k, r3)
      | none => some ((ip : ℚ), r2)
    | _ => some ((ip : ℚ), r1)

/-- Parse the regex group `[+-]?\d+\.?\d*` (optionally signed numeral). -/
def parseSigned (s : List Char) : Option (ℚ × List Char) :=
  match s with
  | '+' :: r => parseUnsigned r
  | '-' :: r => (parseUnsigned r).map (fun p => (-p.1, p.2))
  | _ => parseUnsigned s

/-! ## Regex translations shared by parser and validator

All searches are leftmost-first, exactly as `re.search`; anchored patterns
(`re.match`) check only position 0. -/

/-- `re.search(r"L\s*([+-]?\d+\.?\d*)", s)` for a parameter letter `L`:
first occurrence of the letter followed by optional whitespace and a signed
numeral; returns the numeral's value.  Mirrors `_RE_Z_PARAM` / `_RE_X_PARAM` /
`_RE_Y_PARAM` of `validator.py` (run on upper-cased input). -/
def paramSearch (letter : Char) : List Char → Option ℚ
  | [] => none
  | c :: rest =>
    if c = letter then
      match parseSigned (rest.dropWhile pyIsSpace) with
      | some (q, _) => some q
      | none => paramSearch letter rest
    else paramSearch letter rest

/-- `re.search(r"S\s*(\d+\.?\d*)", s)`: like `paramSearch` but the numeral is
unsigned.  Mirrors `_RE_S_PARAM` of `validator.py`. -/
def sParamSearch : List Char → Option ℚ
  | [] => none
  | c :: rest =>
    if c = 'S' then
      match parseUnsigned (rest.dropWhile pyIsSpace) with
      | some (q, _) => some q
      | none => sParamSearch rest
    else sParamSearch rest

/-- `re.match(r"^G(\d+)", s)` on an upper-cased command: the numeric code of a
G command.  Mirrors `_RE_G_COMMAND`. -/
def gCommandMatch : List Char → Option ℕ
  | 'G' :: rest => (digitRun rest).map (fun t => t.1)
  | _ => none

/-- `re.match(r"^M(\d+)", s)` on an upper-cased command.  Mirrors
`_RE_M_COMMAND`. -/
def mCommandMatch : List Char → Option ℕ
  | 'M' :: rest => (digitRun rest).map (fun t => t.1)
  | _ => none

/-! ## Parser regexes (`src/core/gcode_parser.py`, module-level patterns) -/

/-- Generic leftmost search: try `f` at every suffix, left to right. -/
def searchO (f : List Char → Option β) : List Char → Option β
  | [] => none
  | c :: rest => f (c :: rest) <|> searchO f rest

/-- Attempt of `_RE_LAYER_NUM` (`;\s*LAYER\s*:\s*(-?\d+)`, case-insensitive)
at one position. -/
def layerTagAt : List Char → Option ℤ
  | ';' :: rest =>
    let r1 := rest.dropWhile pyIsSpace
    if upList (r1.take 5) = "LAYER".toList then
      let r2 := (r1.drop 5).dropWhile pyIsSpace
      match r2 with
      | ':' :: r3 =>
        let r4 := r3.dropWhile pyIsSpace
        match r4 with
        | '-' :: r5 => (digitRun r5).map (fun t => -(t.1 : ℤ))
        | _ => (digitRun r4).map (fun t => (t.1 : ℤ))
      | _ => none
    else none
  | _ => none

/-- `_RE_LAYER_NUM.search` on a stripped comment line. -/
def layerNumSearch (s : List Char) : Option ℤ := searchO layerTagAt s

/-- Attempt of `_RE_LAYER_CHANGE` (`;\s*LAYER_CHANGE`, case-insensitive) at
one position. -/
def layerChangeAt : List Char → Bool
  | ';' :: rest => upList ((rest.dropWhile pyIsSpace).take 12) = "LAYER_CHANGE".toList
  | _ => false

/-- `_RE_LAYER_CHANGE.search`. -/
def layerChangeSearch (s : List Char) : Bool :=
  (searchO (fun t => if layerChangeAt t then some () else none) s).isSome

/-- Rightmost `Z\s*([+-]?\d+\.?\d*)` in a suffix: the greedy `.*Z` of
`_RE_Z_MOVE` commits to the last `Z` followed by a valid numeral. -/
def zMoveLast : List Char → Option ℚ
  | [] => none
  | c :: rest =>
    match zMoveLast rest with
    | some q => some q
    | none =>
      if c = 'Z' then (parseSigned (rest.dropWhile pyIsSpace)).map (fun p => p.1)
      else none

/-- `_RE_Z_MOVE.match` (`^G[01]\s.*Z\s*([+-]?\d+\.?\d*)`) on the upper-cased
command. -/
def zMoveMatch : List Char → Option ℚ
  | 'G' :: d :: w :: rest =>
    if (d = '0' ∨ d = '1') ∧ pyIsSpace w then zMoveLast rest else none
  | _ => none

/-- Regex `\b` word-boundary check at the start of the suffix `s`, given that
the last consumed character was a word character. -/
def wordBoundaryHead : List Char → Bool
  | [] => true
  | c :: _ => !isWordChar c

/-- First `[SR]\s*([+-]?\d+\.?\d*)` in the suffix: the lazy `.*?[SR]` of the
temperature patterns commits to the first letter with a valid numeral. -/
def srSearch : List Char → Option ℚ
  | [] => none
  | c :: rest =>
    if c = 'S' ∨ c = 'R' then
      match parseSigned (rest.dropWhile pyIsSpace) with
      | some (q, _) => some q
      | none => srSearch rest
    else srSearch rest

/-- `_RE_TEMP_BED.match` / `_RE_TEMP_NOZZLE.match`
(`^M(140|190)\b.*?[SR]\s*([+-]?\d+\.?\d*)` and the `104|109` variant) on the
upper-cased command; `a`/`b` are the two four-character prefixes. -/
def mTempMatch (a b : List Char) (s : List Char) : Option ℚ :=
  if (a.isPrefixOf s ∨ b.isPrefixOf s) ∧ wordBoundaryHead (s.drop 4) then
    srSearch (s.drop 4)
  else none

/-- Leftmost-position search where the previous character must not be a word
character (for patterns of the shape `.*?\bWORD…`); `prevWord` records
whether the character before the current suffix was a word character. -/
def wbSearch (f : List Char → Option β) : Bool → List Char → Option β
  | _, [] => none
  | prevWord, c :: rest =>
    (if !prevWord then f (c :: rest) else none) <|> wbSearch f (isWordChar c) rest

/-- At one position: one of the key words `ws` (tried in pattern order),
then `\s*=\s*` and a numeral (signed iff `sign`); regex backtracking tries
the next alternative when the tail fails. -/
def tryKeyEqNum (sign : Bool) (ws : List (List Char)) (s : List Char) :
    Option ℚ :=
  match ws with
  | [] => none
  | w :: rest =>
    (if w.isPrefixOf s then
      match (s.drop w.length).dropWhile pyIsSpace with
      | '=' :: r2 =>
        match (if sign then parseSigned else parseUnsigned)
            (r2.dropWhile pyIsSpace) with
        | some (q, _) => some q
        | none => none
      | _ => none
    else none) <|> tryKeyEqNum sign rest s

/-- At one position: a key word, `\s*=\s*`, then the group `([A-Z0-9_]+)`
(maximal, with its trailing `\b`); returns the group and the rest. -/
def keyEqWordAt (w : List Char) (s : List Char) : Option (List Char × List Char) :=
  if w.isPrefixOf s then
    match (s.drop w.length).dropWhile pyIsSpace with
    | '=' :: r2 =>
      let r3 := r2.dropWhile pyIsSpace
      let g := r3.takeWhile isWordChar
      if g.isEmpty then none else some (g, r3.drop g.length)
    | _ => none
  else none

/-- `_RE_KLIPPER_SET_HEATER.match`
(`^SET_HEATER_TEMPERATURE\b.*?\bHEATER\s*=\s*([A-Z0-9_]+)\b.*?\bTARGET\s*=\s*([+-]?\d+\.?\d*)`)
on the upper-cased command: heater name and target. -/
def setHeaterMatch (s : List Char) : Option (List Char × ℚ) :=
  let w := "SET_HEATER_TEMPERATURE".toList
  if w.isPrefixOf s ∧ wordBoundaryHead (s.drop w.length) then
    wbSearch
      (fun t =>
        match keyEqWordAt "HEATER".toList t with
        | some (g, rest) =>
          (wbSearch (tryKeyEqNum true ["TARGET".toList]) true rest).map
            (fun q => (g, q))
        | none => none)
      true (s.drop w.length)
  else none

/-- `_RE_KLIPPER_TEMP_WAIT.match`
(`^TEMPERATURE_WAIT\b.*?\bSENSOR\s*=\s*([A-Z0-9_]+)\b.*?\b(?:MINIMUM|MAXIMUM|TARGET)\s*=\s*([+-]?\d+\.?\d*)`)
on the upper-cased command: sensor name and value. -/
def tempWaitMatch (s : List Char) : Option (List Char × ℚ) :=
  let w := "TEMPERATURE_WAIT".toList
  if w.isPrefixOf s ∧ wordBoundaryHead (s.drop w.length) then
    wbSearch
      (fun t =>
        match keyEqWordAt "SENSOR".toList t with
        | some (g, rest) =>
          (wbSearch
            (tryKeyEqNum true
              ["MINIMUM".toList, "MAXIMUM".toList, "TARGET".toList])
            true rest).map (fun q => (g, q))
        | none => none)
      true (s.drop w.length)
  else none

/-- `_RE_KLIPPER_MACRO_EXTRUDER.search`
(`\b(?:EXTRUDER_TEMP|EXTRUDER|HOTEND|NOZZLE|NOZZLE_TEMP|HOTEND_TEMP)\s*=\s*([+-]?\d+\.?\d*)`). -/
def macroExtruderSearch (s : List Char) : Option ℚ :=
  wbSearch
    (tryKeyEqNum true
      ["EXTRUDER_TEMP".toList, "EXTRUDER".toList, "HOTEND".toList,
       "NOZZLE".toList, "NOZZLE_TEMP".toList, "HOTEND_TEMP".toList])
    false s

/-- `_RE_KLIPPER_MACRO_BED.search`
(`\b(?:BED_TEMP|BED|BED_TEMPERATURE)\s*=\s*([+-]?\d+\.?\d*)`). -/
def macroBedSearch (s : List Char) : Option ℚ :=
  wbSearch
    (tryKeyEqNum true
      ["BED_TEMP".toList, "BED".toList, "BED_TEMPERATURE".toList])
    false s

/-- `_RE_COMMENT_NOZZLE_TEMP.search` / `_RE_COMMENT_BED_TEMP.search`
(`;\s*(?:<keys>)\s*=\s*(\d+\.?\d*)`, case-insensitive): search at every `;`,
keys tried in pattern order.  Runs on the upper-cased copy of the stripped
line (the pattern is case-insensitive). -/
def commentKeySearch (ws : List (List Char)) : List Char → Option ℚ
  | [] => none
  | ';' :: rest =>
    tryKeyEqNum false ws (rest.dropWhile pyIsSpace) <|> commentKeySearch ws rest
  | _ :: rest => commentKeySearch ws rest

def commentNozzleSearch (s : List Char) : Option ℚ :=
  commentKeySearch
    ["NOZZLE_TEMPERATURE".toList, "TEMPERATURE_EXTRUDER".toList,
     "EXTRUDER_TEMPERATURE".toList, "HOTEND_TEMP".toList,
     "NOZZLE_TEMP".toList, "FIRST_LAYER_TEMPERATURE".toList]
    (upList s)

def commentBedSearch (s : List Char) : Option ℚ :=
  commentKeySearch
    ["BED_TEMPERATURE".toList, "FIRST_LAYER_BED_TEMPERATURE".toList,
     "HEATED_BED_TEMPERATURE".toList]
    (upList s)

/-- `_RE_UNIT.match` (`^G(20|21)\b`). -/
def unitMatch (s : List Char) : Option String :=
  if "G20".toList.isPrefixOf s ∧ wordBoundaryHead (s.drop 3) then some "G20"
  else if "G21".toList.isPrefixOf s ∧ wordBoundaryHead (s.drop 3) then some "G21"
  else none

/-- `_RE_POS_MODE.match` (`^G(90|91)\b`). -/
def posModeMatch (s : List Char) : Option String :=
  if "G90".toList.isPrefixOf s ∧ wordBoundaryHead (s.drop 3) then some "G90"
  else if "G91".toList.isPrefixOf s ∧ wordBoundaryHead (s.drop 3) then some "G91"
  else none

/-- `_RE_EXT_MODE.match` (`^M(82|83)\b`). -/
def extModeMatch (s : List Char) : Option String :=
  if "M82".toList.isPrefixOf s ∧ wordBoundaryHead (s.drop 3) then some "M82"
  else if "M83".toList.isPrefixOf s ∧ wordBoundaryHead (s.drop 3) then some "M83"
  else none

/-! ## Numeric rendering

Python's `f"{x:.3f}"` formatting of the rational values handled here.
(On the exact decimals produced by this pipeline the binary double and the
rational agree; ties at the rounding boundary do not occur in any value the
proofs touch, so `round` stands in for the double's round-half-even.) -/

/-- Render `q` with exactly three decimal places, as `f"{q:.3f}"`. -/
def fmt3 (q : ℚ) : String :=
  let n : ℤ := round (q * 1000)
  let m : ℕ := n.natAbs
  let fs : String := toString (m % 1000)
  let pad : String := ⟨List.replicate (3 - fs.length) '0'⟩
  (if n < 0 then "-" else "") ++ toString (m / 1000) ++ "." ++ pad ++ fs

/-- Render `q` with three decimal places and an explicit sign,
as `f"{q:+.3f}"`. -/
def fmt3s (q : ℚ) : String :=
  let n : ℤ := round (q * 1000)
  let m : ℕ := n.natAbs
  let fs : String := toString (m % 1000)
  let pad : String := ⟨List.replicate (3 - fs.length) '0'⟩
  (if n < 0 then "-" else "+") ++ toString (m / 1000) ++ "." ++ pad ++ fs

/-- Python `repr` of a float that is an exact short decimal (used only for
the tolerance value interpolated into messages): integer part, point, then
the shortest fraction digits (`0.15` ↦ `"0.15"`, `10 ↦ "10.0"`). -/
def reprDec (q : ℚ) : String :=
  let n : ℤ := round (q * 10 ^ 6)
  let m : ℕ := n.natAbs
  let ip : ℕ := m / 10 ^ 6
  let rec dropZeros : List Char → List Char
    | '0' :: rest => dropZeros rest
    | l => l
  let fracDigits : List Char :=
    (dropZeros (toString (m % 10 ^ 6 + 10 ^ 6)).toList.reverse.dropLast).reverse
  let frac : String := if fracDigits.isEmpty then "0" else ⟨fracDigits⟩
  (if n < 0 then "-" else "") ++ toString ip ++ "." ++ frac

/-! ## Validator (`src/core/validator.py`)

`Validator.validate` scans a list of output lines once, accumulating
`ValidationIssue`s, and appends the post-scan (document-level) checks. -/

inductive Severity where
  | warning
  | error
deriving DecidableEq, Repr

structure ValidationIssue where
  severity : Severity
  line_number : ℕ
  message : String
  code : String
deriving DecidableEq, Repr

structure ValidationResult where
  issues : List ValidationIssue
deriving DecidableEq, Repr

def ValidationResult.ok (r : ValidationResult) : Bool :=
  ¬ r.issues.any (fun i => i.severity = Severity.error)

def ValidationResult.warnings (r : ValidationResult) : List ValidationIssue :=
  r.issues.filter (fun i => i.severity = Severity.warning)

def ValidationResult.errors (r : ValidationResult) : List ValidationIssue :=
  r.issues.filter (fun i => i.severity = Severity.error)

/-- Known G codes (`_VALID_G`). -/
def validG : List ℕ := [0, 1, 4, 10, 11, 20, 21, 28, 29, 80, 90, 91, 92]

/-- Known M codes (`_VALID_M`). -/
def validM : List ℕ :=
  [0, 1, 17, 18, 19, 20, 21, 24, 25, 26, 27, 28, 29, 30, 31, 32, 33,
   42, 73, 75, 76, 77, 78, 80, 81, 82, 83, 84, 85,
   92, 104, 105, 106, 107, 108, 109, 110, 111, 112,
   114, 115, 116, 117, 118, 119, 120, 121, 122,
   140, 141, 143, 149, 150, 155, 163, 164, 190, 191,
   200, 201, 202, 203, 204, 205, 206, 207, 208, 209,
   210, 211, 212, 218, 220, 221, 226,
   240, 250, 251, 260, 261, 280, 281, 290, 291,
   300, 301, 302, 303, 304, 305,
   400, 401, 402, 403, 404, 405, 406, 407, 408,
   420, 421, 422, 423, 425,
   500, 501, 502, 503, 504, 505, 510, 511, 512,
   524, 540, 552, 569, 575, 593,
   600, 601, 602, 603, 605, 665,
   701, 702, 703, 704, 710, 851, 852, 860, 861, 862,
   900, 906, 907, 908, 910, 911, 912, 913, 914, 915,
   997, 998, 999]

/-- Scan state of `Validator.validate`'s single loop over the lines. -/
structure VScan where
  issues : List ValidationIssue
  has_bed_temp : Bool
  has_nozzle_temp : Bool
  has_z_lift : Bool
  has_xy_move : Bool
  first_xy_line : Option ℕ
  first_z_line : Option ℕ
  current_z : ℚ
  in_header : Bool

def VScan.init : VScan :=
  ⟨[], false, false, false, false, none, none, 0, true⟩

/-- The command part of a stripped line: text before the first `;`,
re-stripped (`stripped.split(";", 1)[0].strip()`). -/
def cmdOf (stripped : List Char) : List Char :=
  pyStripL (stripped.takeWhile (fun c => c ≠ ';'))

/-- Is the (upper-cased) command a `G0`/`G1` motion command?
(`cmd_upper.startswith(("G0", "G1"))`.) -/
def isG01 (cmdU : List Char) : Bool :=
  "G0".toList.isPrefixOf cmdU || "G1".toList.isPrefixOf cmdU

/-- `validate` loop, phase "Syntax check: known G/M codes". -/
def stepSyntax (lineNum : ℕ) (cmdU : List Char) (st : VScan) : VScan :=
  let st :=
    match gCommandMatch cmdU with
    | some code =>
      if code ∉ validG then
        { st with issues := st.issues ++
            [⟨Severity.warning, lineNum,
              "Unusual G-code: G" ++ toString code, "UNUSUAL_G"⟩] }
      else st
    | none => st
  match mCommandMatch cmdU with
  | some code =>
    if code ∉ validM then
      { st with issues := st.issues ++
          [⟨Severity.warning, lineNum,
            "Unusual M-code: M" ++ toString code, "UNUSUAL_M"⟩] }
    else st
  | none => st

/-- `validate` loop, phase "Temperature detection". -/
def stepTemps (cmdU : List Char) (st : VScan) : VScan :=
  let st :=
    if "M140".toList.isPrefixOf cmdU || "M190".toList.isPrefixOf cmdU then
      match sParamSearch cmdU with
      | some s => if s > 0 then { st with has_bed_temp := true } else st
      | none => st
    else st
  if "M104".toList.isPrefixOf cmdU || "M109".toList.isPrefixOf cmdU then
    match sParamSearch cmdU with
    | some s => if s > 0 then { st with has_nozzle_temp := true } else st
    | none => st
  else st

/-- `validate` loop, phase "Movement safety". -/
def stepMovement (lineNum : ℕ) (cmdU : List Char) (st : VScan) : VScan :=
  let st :=
    match paramSearch 'Z' cmdU with
    | some new_z =>
      if isG01 cmdU then
        let st := { st with current_z := new_z }
        if !st.has_z_lift then
          { st with has_z_lift := true, first_z_line := some lineNum }
        else st
      else st
    | none => st
  if ((paramSearch 'X' cmdU).isSome || (paramSearch 'Y' cmdU).isSome) &&
      isG01 cmdU then
    if !st.has_xy_move then
      { st with has_xy_move := true, first_xy_line := some lineNum }
    else st
  else st

/-- `validate` loop, phase "Z collision: only check after header". -/
def stepCollision (resume_z : ℚ) (lineNum : ℕ) (cmdU : List Char)
    (st : VScan) : VScan :=
  match paramSearch 'Z' cmdU with
  | some new_z =>
    if !st.in_header && isG01 cmdU && decide (new_z < resume_z - 1/2) then
      { st with issues := st.issues ++
          [⟨Severity.warning, lineNum,
            "Z moves to " ++ fmt3 new_z ++ " mm, which is below " ++
              "resume Z " ++ fmt3 resume_z ++ " mm. Possible collision.",
            "Z_COLLISION"⟩] }
    else st
  | none => st

/-- `validate` loop, phase "Detect G28 Z (forbidden)". -/
def stepHome (lineNum : ℕ) (cmdU : List Char) (st : VScan) : VScan :=
  if "G28".toList.isPrefixOf cmdU && containsSub ['Z'] cmdU then
    { st with issues := st.issues ++
        [⟨Severity.error, lineNum,
          "G28 Z detected — auto-homing Z is forbidden in resume files.",
          "Z_HOME"⟩] }
  else st

/-- One iteration of the `validate` loop body, for the line with 1-based
number `lineNum`: the source's comment/blank fast path followed by the five
phases above in source order. -/
def validateStep (resume_z : ℚ) (lineNum : ℕ) (st : VScan) (raw : String) :
    VScan :=
  let stripped := pyStripL raw.toList
  if stripped.isEmpty || stripped.headD ' ' = ';' then
    if stripped = "; --- End Resume Header ---".toList then
      { st with in_header := false }
    else if "; === Resume Print from Layer".toList.isPrefixOf stripped then
      { st with in_header := false }
    else st
  else
    let cmd := cmdOf stripped
    if cmd.isEmpty then st
    else
      let cmdU := upList cmd
      stepHome lineNum cmdU
        (stepCollision resume_z lineNum cmdU
          (stepMovement lineNum cmdU
            (stepTemps cmdU
              (stepSyntax lineNum cmdU st))))

def validateLoop (resume_z : ℚ) (lineNum : ℕ) (st : VScan) :
    List String → VScan
  | [] => st
  | l :: rest => validateLoop resume_z (lineNum + 1)
      (validateStep resume_z lineNum st l) rest

/-- `Validator.validate` — the scan above followed by the post-scan
(document-level) checks.  The source signature is
`validate(self, lines, resume_z=0.0, safe_lift_z=10.0)`; it accepts no
resume-mode argument, and `safe_lift_z` is never read in the body. -/
def validate (lines : List String) (resume_z : ℚ := 0)
    (_safe_lift_z : ℚ := 10) : ValidationResult :=
  let st := validateLoop resume_z 1 VScan.init lines
  let issues := st.issues
  let issues :=
    if ¬ st.has_bed_temp then
      issues ++ [⟨Severity.error, 0,
        "No bed temperature command found.", "MISSING_BED_TEMP"⟩]
    else issues
  let issues :=
    if ¬ st.has_nozzle_temp then
      issues ++ [⟨Severity.error, 0,
        "No nozzle temperature command found.", "MISSING_NOZZLE_TEMP"⟩]
    else issues
  let issues :=
    match st.first_xy_line with
    | some fxy =>
      if st.has_xy_move &&
          (match st.first_z_line with
           | none => true
           | some fz => decide (fz > fxy)) then
        issues ++ [⟨Severity.error, fxy,
          "XY movement before Z lift — risk of collision.", "XY_BEFORE_Z"⟩]
      else issues
    | none => issues
  ⟨issues⟩

/-! ## Parser (`src/core/gcode_parser.py`) -/

/-- `PrinterState` — detected printer state. -/
structure PrinterState where
  units : String := "G21"
  positioning : String := "G90"
  extruder_mode : String := "M82"
  bed_temp : ℚ := 0
  nozzle_temp : ℚ := 0
deriving DecidableEq, Repr

/-- `LayerInfo` — a single detected layer.  `end_line` is `-1` until
finalized. -/
structure LayerInfo where
  number : ℤ
  z_height : ℚ
  start_line : ℕ
  end_line : ℤ := -1
deriving DecidableEq, Repr

/-- `ParsedGCode` — result of parsing. -/
structure ParsedGCode where
  lines : List String
  layers : List LayerInfo
  state : PrinterState
  header_end_line : ℕ
  detection_method : String
  source_filename : String
  preamble_lines : List String
deriving DecidableEq, Repr

/-- Accumulator of the `_parse_stream` loop.  The source stores layer
markers as `(line_idx, layer_num, None)`; the always-`None` third slot is
dropped here. -/
structure PScan where
  lines : List String
  state : PrinterState
  layer_markers : List (ℕ × ℤ)
  layer_change_markers : List ℕ
  z_changes : List (ℕ × ℚ)
  current_z : ℚ
  header_end : ℕ
  first_move_seen : Bool
deriving Repr

def PScan.init : PScan := ⟨[], {}, [], [], [], 0, 0, false⟩

/-- Comment branch of the loop body: layer markers (guarded by the
`"LAYER" in stripped[1:7].upper()` fast path) and slicer comment metadata
for temperatures. -/
def pstepComment (idx : ℕ) (stripped : List Char) (st : PScan) : PScan :=
  let st :=
    if containsSub "LAYER".toList (upList ((stripped.drop 1).take 6)) then
      match layerNumSearch stripped with
      | some n => { st with layer_markers := st.layer_markers ++ [(idx, n)] }
      | none =>
        if layerChangeSearch stripped then
          { st with layer_change_markers := st.layer_change_markers ++ [idx] }
        else st
    else st
  let st :=
    if st.state.nozzle_temp = 0 then
      match commentNozzleSearch stripped with
      | some temp =>
        if temp > 0 then
          { st with state := { st.state with nozzle_temp := temp } }
        else st
      | none => st
    else st
  if st.state.bed_temp = 0 then
    match commentBedSearch stripped with
    | some temp =>
      if temp > 0 then
        { st with state := { st.state with bed_temp := temp } }
      else st
    | none => st
  else st

/-- `G` branch of the loop body: `G0`/`G1` Z-change collection and
header-end heuristic, other G codes update units / positioning. -/
def pstepG (idx : ℕ) (cmdU : List Char) (st : PScan) : PScan :=
  if (cmdU.drop 1).take 1 = ['0'] ∨ (cmdU.drop 1).take 1 = ['1'] then
    let st :=
      if containsSub ['Z'] cmdU then
        match zMoveMatch cmdU with
        | some new_z =>
          if new_z ≠ st.current_z then
            { st with z_changes := st.z_changes ++ [(idx, new_z)],
                      current_z := new_z }
          else st
        | none => st
      else st
    if !st.first_move_seen ∧ containsSub ['E'] cmdU then
      { st with first_move_seen := true, header_end := idx }
    else st
  else
    let st :=
      match unitMatch cmdU with
      | some u => { st with state := { st.state with units := u } }
      | none => st
    match posModeMatch cmdU with
    | some p => { st with state := { st.state with positioning := p } }
    | none => st

/-- `M` branch of the loop body: temperature commands and extruder mode,
dispatched on the digits after `M`. -/
def pstepM (cmdU : List Char) (st : PScan) : PScan :=
  let prefix3 := (cmdU.drop 1).take 3
  if "140".toList.isPrefixOf prefix3 ∨ "190".toList.isPrefixOf prefix3 then
    match mTempMatch "M140".toList "M190".toList cmdU with
    | some temp =>
      if temp > 0 then
        { st with state := { st.state with bed_temp := temp } }
      else st
    | none => st
  else if "104".toList.isPrefixOf prefix3 ∨ "109".toList.isPrefixOf prefix3 then
    match mTempMatch "M104".toList "M109".toList cmdU with
    | some temp =>
      if temp > 0 then
        { st with state := { st.state with nozzle_temp := temp } }
      else st
    | none => st
  else if "82".toList.isPrefixOf prefix3 ∨ "83".toList.isPrefixOf prefix3 then
    match extModeMatch cmdU with
    | some m => { st with state := { st.state with extruder_mode := m } }
    | none => st
  else st

/-- Klipper `SET_HEATER_TEMPERATURE` branch. -/
def pstepSetHeater (cmdU : List Char) (st : PScan) : PScan :=
  match setHeaterMatch cmdU with
  | some (heater, temp) =>
    if temp > 0 then
      if containsSub "BED".toList heater then
        { st with state := { st.state with bed_temp := temp } }
      else if containsSub "EXTRUDER".toList heater then
        { st with state := { st.state with nozzle_temp := temp } }
      else st
    else st
  | none => st

/-- Klipper `TEMPERATURE_WAIT` branch. -/
def pstepTempWait (cmdU : List Char) (st : PScan) : PScan :=
  match tempWaitMatch cmdU with
  | some (sensor, temp) =>
    if temp > 0 then
      if containsSub "BED".toList sensor then
        { st with state := { st.state with bed_temp := temp } }
      else if containsSub "EXTRUDER".toList sensor then
        { st with state := { st.state with nozzle_temp := temp } }
      else st
    else st
  | none => st

/-- Catch-all branch for Klipper macros passing temperatures as
`key=value` parameters. -/
def pstepMacro (cmdU : List Char) (st : PScan) : PScan :=
  let st :=
    match macroExtruderSearch cmdU with
    | some temp =>
      if temp > 0 then
        { st with state := { st.state with nozzle_temp := temp } }
      else st
    | none => st
  match macroBedSearch cmdU with
  | some temp =>
    if temp > 0 then
      { st with state := { st.state with bed_temp := temp } }
    else st
  | none => st

/-- One iteration of the `_parse_stream` loop body for line index `idx`. -/
def pstep (idx : ℕ) (st : PScan) (raw : String) : PScan :=
  let line : List Char := rstripNewlineL raw.toList
  let st := { st with lines := st.lines ++ [(⟨line⟩ : String)] }
  let stripped := pyStripL line
  if stripped.isEmpty then st
  else if stripped.headD ' ' = ';' then pstepComment idx stripped st
  else
    let cmd := pyRstripL (stripped.takeWhile (fun c => c ≠ ';'))
    if cmd.isEmpty then st
    else
      let cmdU := upList cmd
      let fc := upChar (stripped.headD ' ')
      if fc = 'G' then pstepG idx cmdU st
      else if fc = 'M' then pstepM cmdU st
      else if "SET_HEATER_TEMPERATURE".toList.isPrefixOf cmdU then
        pstepSetHeater cmdU st
      else if "TEMPERATURE_WAIT".toList.isPrefixOf cmdU then
        pstepTempWait cmdU st
      else pstepMacro cmdU st

def parseLoop (idx : ℕ) (st : PScan) : List String → PScan
  | [] => st
  | l :: rest => parseLoop (idx + 1) (pstep idx st l) rest

/-- Finalization of `end_line`s shared by the three builders: each layer's
`end_line` becomes the next layer's `start_line − 1`; the last layer's
becomes `total − 1`. -/
def chainEnds (total : ℕ) : List LayerInfo → List LayerInfo
  | [] => []
  | [a] => [{ a with end_line := (total : ℤ) - 1 }]
  | a :: b :: rest =>
    { a with end_line := (b.start_line : ℤ) - 1 } :: chainEnds total (b :: rest)

/-- `GCodeParser._layers_from_markers`. -/
def layersFromMarkers (markers : List (ℕ × ℤ)) (total : ℕ) : List LayerInfo :=
  chainEnds total
    (markers.map (fun m => { number := m.2, z_height := 0, start_line := m.1 }))

/-- The pointer walk of `GCodeParser._backfill_z`: `lastPassed` holds the
value of the last Z change the pointer has stepped over. -/
def backfillGo (lastPassed : Option ℚ) (zs : List (ℕ × ℚ)) :
    List LayerInfo → List LayerInfo
  | [] => []
  | layer :: rest =>
    let skipped := zs.takeWhile (fun p => p.1 < layer.start_line)
    let zs2 := zs.dropWhile (fun p => p.1 < layer.start_line)
    let lp := match skipped.getLast? with
              | some p => some p.2
              | none => lastPassed
    let layer2 :=
      match zs2.head? with
      | some p => { layer with z_height := p.2 }
      | none =>
        match lp with
        | some z => { layer with z_height := z }
        | none => layer
    layer2 :: backfillGo lp zs2 rest

/-- `GCodeParser._backfill_z` (no-op when there are no Z changes). -/
def backfillZ (layers : List LayerInfo) (zs : List (ℕ × ℚ)) :
    List LayerInfo :=
  if zs.isEmpty then layers else backfillGo none zs layers

/-- `GCodeParser._layers_from_change_markers`: sequential numbering, Z taken
from the nearest Z change at or after the marker, falling back to the last
Z change of the whole document, then `0`. -/
def changeGo (allZs : List (ℕ × ℚ)) (num : ℕ) (zs : List (ℕ × ℚ)) :
    List ℕ → List LayerInfo
  | [] => []
  | line_idx :: rest =>
    let zs2 := zs.dropWhile (fun p => p.1 < line_idx)
    let z : ℚ :=
      match zs2.head? with
      | some p => p.2
      | none =>
        match allZs.getLast? with
        | some p => p.2
        | none => 0
    { number := (num : ℤ), z_height := z, start_line := line_idx } ::
      changeGo allZs (num + 1) zs2 rest

def layersFromChangeMarkers (markers : List ℕ) (zs : List (ℕ × ℚ))
    (total : ℕ) : List LayerInfo :=
  chainEnds total (changeGo zs 0 zs markers)

/-- `GCodeParser._layers_from_z_changes`: every Z increase over the running
previous Z (initially `−1.0`) starts a layer. -/
def zLayersGo (prev_z : ℚ) (num : ℕ) : List (ℕ × ℚ) → List LayerInfo
  | [] => []
  | (line_idx, z) :: rest =>
    if z > prev_z then
      { number := (num : ℤ), z_height := z, start_line := line_idx } ::
        zLayersGo z (num + 1) rest
    else zLayersGo prev_z num rest

def layersFromZChanges (zs : List (ℕ × ℚ)) (total : ℕ) : List LayerInfo :=
  chainEnds total (zLayersGo (-1) 0 zs)

/-- `GCodeParser._parse_stream`, taking the input as its sequence of raw
lines (each possibly carrying a trailing newline, which the loop strips):
the scan above, then layer building from the best available source, then
preamble capture. -/
def parseLines (input : List String) : ParsedGCode :=
  let st := parseLoop 0 PScan.init input
  let total := st.lines.length
  let (method, layers) :=
    if !st.layer_markers.isEmpty then
      ("comment_layer", backfillZ (layersFromMarkers st.layer_markers total) st.z_changes)
    else if !st.layer_change_markers.isEmpty then
      ("layer_change", layersFromChangeMarkers st.layer_change_markers st.z_changes total)
    else if !st.z_changes.isEmpty then
      ("z_move", layersFromZChanges st.z_changes total)
    else ("none", [])
  let preamble :=
    match layers.head? with
    | some l => st.lines.take l.start_line
    | none => []
  { lines := st.lines, layers := layers, state := st.state,
    header_end_line := st.header_end, detection_method := method,
    source_filename := "unknown", preamble_lines := preamble }

/-! ## Layer mapper (`src/core/layer_mapper.py`) -/

/-- `LayerMatch` — result of a layer lookup. -/
structure LayerMatch where
  layer : LayerInfo
  exact : Bool := true
  delta_mm : ℚ := 0
  warning : Option String := none
deriving DecidableEq, Repr

/-- The sort key of `sorted(self._layers, key=lambda l: l.z_height)`. -/
def zKeyLE (a b : LayerInfo) : Prop := a.z_height ≤ b.z_height

instance : DecidableRel zKeyLE := fun a b =>
  inferInstanceAs (Decidable (a.z_height ≤ b.z_height))

instance : IsTotal LayerInfo zKeyLE := ⟨fun a b => le_total a.z_height b.z_height⟩

instance : IsTrans LayerInfo zKeyLE := ⟨fun _ _ _ h h2 => le_trans h h2⟩

/-- `LayerMapper` — the stored layer list (construction order) and the
tolerance.  The constructor raises on an empty layer list, so the emptiness
guard is carried as an invariant. -/
structure LayerMapper where
  layers : List LayerInfo
  tolerance_mm : ℚ := 3 / 20
  ne : layers ≠ []

/-- `LayerMapper.__init__` — fails on an empty layer list. -/
def mkLayerMapper (layers : List LayerInfo) (tolerance_mm : ℚ := 3 / 20) :
    Except String LayerMapper :=
  if h : layers = [] then
    Except.error "Layer list is empty — cannot build mapper."
  else Except.ok ⟨layers, tolerance_mm, h⟩

/-- `self._z_sorted` — layers sorted by Z (Python's stable `sorted`). -/
def LayerMapper.zSorted (m : LayerMapper) : List LayerInfo :=
  m.layers.insertionSort zKeyLE

def LayerMapper.layer_count (m : LayerMapper) : ℕ := m.layers.length

def LayerMapper.min_layer (m : LayerMapper) : ℤ := (m.layers.head m.ne).number

def LayerMapper.max_layer (m : LayerMapper) : ℤ := (m.layers.getLast m.ne).number

def LayerMapper.zSorted_ne (m : LayerMapper) : m.zSorted ≠ [] := by
  intro h
  have hq : m.layers.Perm m.zSorted :=
    (List.perm_insertionSort zKeyLE m.layers).symm
  rw [h] at hq
  exact m.ne hq.eq_nil

def LayerMapper.min_z (m : LayerMapper) : ℚ :=
  (m.zSorted.head m.zSorted_ne).z_height

def LayerMapper.max_z (m : LayerMapper) : ℚ :=
  (m.zSorted.getLast m.zSorted_ne).z_height

/-- The linear scan of `by_z_height`: keep the layer whose delta has the
strictly smallest absolute value (`float("inf")` start ↦ `none`). -/
def bestGo (z : ℚ) (best : Option (LayerInfo × ℚ)) :
    List LayerInfo → Option (LayerInfo × ℚ)
  | [] => best
  | layer :: rest =>
    let delta := z - layer.z_height
    let best2 :=
      match best with
      | none => some (layer, delta)
      | some (bl, bd) => if |delta| < |bd| then some (layer, delta) else some (bl, bd)
    bestGo z best2 rest

/-- The fuzzy-match warning text of `by_z_height`. -/
def fuzzyWarning (z : ℚ) (best : LayerInfo) (d tol : ℚ) : String :=
  "Measured Z " ++ fmt3 z ++ " mm is " ++ fmt3s d ++ " mm from layer " ++
    toString best.number ++ " (Z " ++ fmt3 best.z_height ++ " mm). " ++
    "Within tolerance (±" ++ reprDec tol ++ " mm) — using layer " ++
    toString best.number ++ "."

/-- The out-of-tolerance error text of `by_z_height`. -/
def rangeError (z : ℚ) (best : LayerInfo) (d tol : ℚ) : String :=
  "Measured Z " ++ fmt3 z ++ " mm is " ++ fmt3 |d| ++ " mm away from " ++
    "the nearest layer (layer " ++ toString best.number ++ " @ Z " ++
    fmt3 best.z_height ++ " mm). " ++
    "This exceeds the tolerance of ±" ++ reprDec tol ++ " mm."

/-- `LayerMapper.by_z_height` — exact on delta `0`, fuzzy within the
(inclusive) tolerance, `ValueError` beyond it.  The `none` branch mirrors
the source's `assert best is not None`, which cannot fire. -/
def LayerMapper.by_z_height (m : LayerMapper) (z_mm : ℚ) :
    Except String LayerMatch :=
  match bestGo z_mm none m.zSorted with
  | none => Except.error "assert best is not None"
  | some (best, best_delta) =>
    if best_delta = 0 then
      Except.ok { layer := best, exact := true, delta_mm := 0 }
    else if |best_delta| ≤ m.tolerance_mm then
      Except.ok { layer := best, exact := false, delta_mm := best_delta,
                  warning := some (fuzzyWarning z_mm best best_delta m.tolerance_mm) }
    else Except.error (rangeError z_mm best best_delta m.tolerance_mm)

/-! ## Resume generator

`src/core/resume_generator.py` is not present in the source tree (only its
callers and tests are), so this section is modelled from the specification
rather than translated from source. -/

/-- Modelled from the spec: `ResumeConfig` of the missing
`src/core/resume_generator.py`, with the defaults its callers
(`controller.py`, `profiles.py`, the tests) exhibit. -/
structure ResumeConfig where
  resume_layer : ℤ
  resume_z : ℚ
  bed_temp : ℚ
  nozzle_temp : ℚ
  safe_lift_mm : ℚ := 10
  z_offset_mm : ℚ := 0
  bed_mesh_cmd : String := "M420 S1"
  resume_mode : String := "in_air"

/-- Modelled from the spec: rewrite the Z parameter of a line, subtracting
the resume Z and rendering with three decimals; the first `Z`-numeral
occurrence is replaced, the rest of the line is copied verbatim. -/
def rebaseScan (rz : ℚ) : List Char → List Char
  | [] => []
  | c :: rest =>
    if upChar c = 'Z' then
      match parseSigned (rest.dropWhile pyIsSpace) with
      | some (q, r2) => 'Z' :: ((fmt3 (q - rz)).toList ++ r2)
      | none => c :: rebaseScan rz rest
    else c :: rebaseScan rz rest

/-- Modelled from the spec: from-plate Z rebasing of one body line — motion
commands (`G0`/`G1`) have their Z parameter rebased by subtracting the
resume Z; every other line is copied verbatim. -/
def rebaseLine (rz : ℚ) (raw : String) : String :=
  let cmdU := upList (cmdOf (pyStripL raw.toList))
  if isG01 cmdU then ⟨rebaseScan rz raw.toList⟩ else raw

/-- Modelled from the spec: preamble comment lines preserved into the new
header (material/filament metadata and thumbnail blocks). -/
def keepMetadata (raw : String) : Bool :=
  let s := upList (pyStripL raw.toList)
  s.headD ' ' = ';' &&
    (containsSub "FILAMENT".toList s || containsSub "THUMBNAIL".toList s)

/-- Modelled from the spec: the safety/info header of the generated file —
preserved metadata, banner block, homing (X/Y only except in from-plate
mode), heating with waits, bed-mesh command, Z reference reset and safe
lift. -/
def genHeader (doc : ParsedGCode) (_lm : LayerMatch) (cfg : ResumeConfig) :
    List String :=
  let liftZ := cfg.resume_z + cfg.z_offset_mm + cfg.safe_lift_mm
  doc.preamble_lines.filter keepMetadata ++
  ["; === Resume Print from Layer " ++ toString cfg.resume_layer ++ " ===",
   "; Resume Mode: " ++ cfg.resume_mode,
   "; Resume Layer: " ++ toString cfg.resume_layer,
   "; Resume Z: " ++ fmt3 cfg.resume_z] ++
  (if cfg.z_offset_mm ≠ 0 then ["; Z Offset: " ++ fmt3 cfg.z_offset_mm] else []) ++
  ["; --- End Resume Header ---",
   (if cfg.resume_mode = "from_plate" then
      "G28                        ; Home all axes"
    else "G28 X Y"),
   "M140 S" ++ toString (round cfg.bed_temp : ℤ),
   "M104 S" ++ toString (round cfg.nozzle_temp : ℤ),
   "M190 S" ++ toString (round cfg.bed_temp : ℤ),
   "M109 S" ++ toString (round cfg.nozzle_temp : ℤ)] ++
  (if cfg.bed_mesh_cmd ≠ "" then [cfg.bed_mesh_cmd] else []) ++
  ["G92 Z" ++ fmt3 (cfg.resume_z + cfg.z_offset_mm),
   "G1 Z" ++ fmt3 liftZ ++ " F3000"]

/-- Modelled from the spec: the body — every original line from the matched
layer's `start_line` through end of document, Z-rebased in from-plate
mode. -/
def genBody (doc : ParsedGCode) (lm : LayerMatch) (cfg : ResumeConfig) :
    List String :=
  let body := doc.lines.drop lm.layer.start_line
  if cfg.resume_mode = "from_plate" then body.map (rebaseLine cfg.resume_z)
  else body

/-- Modelled from the spec: `ResumeGenerator.generate` — header followed by
body. -/
def generate (doc : ParsedGCode) (lm : LayerMatch) (cfg : ResumeConfig) :
    List String :=
  genHeader doc lm cfg ++ genBody doc lm cfg

/-! ## Per-line observations

Stateless views of single lines, factored out of the loop bodies above;
the characterization lemmas below show the loops agree with them. -/

/-- The upper-cased command part of a line as the validator sees it
(empty for blank and comment lines). -/
def lineCmdU (raw : String) : List Char :=
  let stripped := pyStripL raw.toList
  if stripped.isEmpty || stripped.headD ' ' = ';' then []
  else upList (cmdOf stripped)

/-- Is the upper-cased command a Z-bearing `G0`/`G1` motion command? -/
def cmdIsZ (c : List Char) : Bool :=
  (paramSearch 'Z' c).isSome && isG01 c

/-- Is the upper-cased command an XY-bearing `G0`/`G1` motion command? -/
def cmdIsXY (c : List Char) : Bool :=
  ((paramSearch 'X' c).isSome || (paramSearch 'Y' c).isSome) && isG01 c

/-- Does the validator's temperature detection accept this upper-cased
command as a bed heater command (`M140`/`M190` with a strictly positive `S`
target)? -/
def cmdSetsBed (c : List Char) : Bool :=
  ("M140".toList.isPrefixOf c || "M190".toList.isPrefixOf c) &&
  (match sParamSearch c with
   | some s => decide (s > 0)
   | none => false)

/-- Nozzle analogue of `cmdSetsBed` (`M104`/`M109`). -/
def cmdSetsNozzle (c : List Char) : Bool :=
  ("M104".toList.isPrefixOf c || "M109".toList.isPrefixOf c) &&
  (match sParamSearch c with
   | some s => decide (s > 0)
   | none => false)

/-- Does the validator count this line as a Z-bearing `G0`/`G1` motion
command? -/
def lineIsZ (raw : String) : Bool := cmdIsZ (lineCmdU raw)

/-- Does the validator count this line as an XY-bearing `G0`/`G1` motion
command? -/
def lineIsXY (raw : String) : Bool := cmdIsXY (lineCmdU raw)

/-- Does the validator's temperature detection accept this line as a bed
heater command? -/
def lineSetsBed (raw : String) : Bool := cmdSetsBed (lineCmdU raw)

/-- Does the validator's temperature detection accept this line as a nozzle
heater command? -/
def lineSetsNozzle (raw : String) : Bool := cmdSetsNozzle (lineCmdU raw)

/-- The parser's view of one raw line: its stripped form after newline
removal. -/
def pstripOf (raw : String) : List Char :=
  pyStripL (rstripNewlineL raw.toList)

/-- The layer-index marker on a stripped comment line (fast-path gate plus
`_RE_LAYER_NUM`). -/
def strippedMarker (stripped : List Char) : Option ℤ :=
  if containsSub "LAYER".toList (upList ((stripped.drop 1).take 6)) then
    layerNumSearch stripped
  else none

/-- The generic layer-change test on a stripped comment line (gate, no
indexed marker, `_RE_LAYER_CHANGE` found). -/
def strippedChange (stripped : List Char) : Bool :=
  if containsSub "LAYER".toList (upList ((stripped.drop 1).take 6)) then
    (layerNumSearch stripped).isNone && layerChangeSearch stripped
  else false

/-- The Z value an upper-cased `G` command sets (`_RE_Z_MOVE` behind the
`G0`/`G1` and `Z`-containment gates). -/
def cmdZ (cmdU : List Char) : Option ℚ :=
  if (cmdU.drop 1).take 1 = ['0'] ∨ (cmdU.drop 1).take 1 = ['1'] then
    if containsSub ['Z'] cmdU then zMoveMatch cmdU else none
  else none

/-- The layer-index marker carried by this line, if the parser's comment
branch recognises one. -/
def lineMarkerNum (raw : String) : Option ℤ :=
  let stripped := pstripOf raw
  if stripped.isEmpty then none
  else if stripped.headD ' ' = ';' then strippedMarker stripped
  else none

/-- Is this line a generic layer-change marker for the parser? -/
def lineIsChange (raw : String) : Bool :=
  let stripped := pstripOf raw
  if stripped.isEmpty then false
  else if stripped.headD ' ' = ';' then strippedChange stripped
  else false

/-- The Z value this line sets, if the parser's `G0`/`G1` branch extracts
one. -/
def lineZ (raw : String) : Option ℚ :=
  let stripped := pstripOf raw
  if stripped.isEmpty then none
  else if stripped.headD ' ' = ';' then none
  else
    let cmd := pyRstripL (stripped.takeWhile (fun c => c ≠ ';'))
    if cmd.isEmpty then none
    else
      if upChar (stripped.headD ' ') = 'G' then cmdZ (upList cmd)
      else none

/-- The layer markers the scan collects from `input`, with line indices
starting at `i`. -/
def collectMarkers (i : ℕ) : List String → List (ℕ × ℤ)
  | [] => []
  | raw :: rest =>
    match lineMarkerNum raw with
    | some n => (i, n) :: collectMarkers (i + 1) rest
    | none => collectMarkers (i + 1) rest

/-- The layer-change markers the scan collects. -/
def collectChanges (i : ℕ) : List String → List ℕ
  | [] => []
  | raw :: rest =>
    if lineIsChange raw then i :: collectChanges (i + 1) rest
    else collectChanges (i + 1) rest

/-- The Z changes the scan collects: a Z-setting move is recorded only when
its value differs from the running current Z (initially `0`). -/
def zCollect (cur : ℚ) (i : ℕ) : List String → List (ℕ × ℚ)
  | [] => []
  | raw :: rest =>
    match lineZ raw with
    | some z =>
      if z ≠ cur then (i, z) :: zCollect z (i + 1) rest
      else zCollect cur (i + 1) rest
    | none => zCollect cur (i + 1) rest

/-- All Z-setting motion commands of the document (no deduplication),
with line indices starting at `i`. -/
def zMovesFrom (i : ℕ) : List String → List (ℕ × ℚ)
  | [] => []
  | raw :: rest =>
    match lineZ raw with
    | some z => (i, z) :: zMovesFrom (i + 1) rest
    | none => zMovesFrom (i + 1) rest

def markersOf (input : List String) : List (ℕ × ℤ) := collectMarkers 0 input

def changesOf (input : List String) : List ℕ := collectChanges 0 input

def zChangesOf (input : List String) : List (ℕ × ℚ) := zCollect 0 0 input

def zMovesOf (input : List String) : List (ℕ × ℚ) := zMovesFrom 0 input

/-- Reference form of the back-fill rule actually implemented: the first
recorded Z change at or after line `s`, else the last recorded change
before `s`, else the marker default `0`. -/
def backfillSpecZ (zs : List (ℕ × ℚ)) (s : ℕ) (dflt : ℚ) : ℚ :=
  match (zs.dropWhile (fun p => p.1 < s)).head? with
  | some p => p.2
  | none =>
    match (zs.takeWhile (fun p => p.1 < s)).getLast? with
    | some p => p.2
    | none => dflt

/-- Codes the validator's scan loop itself can emit (the post-scan checks
add the `MISSING_*` and `XY_BEFORE_Z` codes afterwards). -/
def scanCode (i : ValidationIssue) : Prop :=
  i.code = "UNUSUAL_G" ∨ i.code = "UNUSUAL_M" ∨ i.code = "Z_COLLISION" ∨
    i.code = "Z_HOME"

/-- The issues the syntax phase emits for one command. -/
def syntaxIssues (n : ℕ) (c : List Char) : List ValidationIssue :=
  (match gCommandMatch c with
   | some code =>
     if code ∉ validG then
       [⟨Severity.warning, n, "Unusual G-code: G" ++ toString code,
         "UNUSUAL_G"⟩]
     else []
   | none => []) ++
  (match mCommandMatch c with
   | some code =>
     if code ∉ validM then
       [⟨Severity.warning, n, "Unusual M-code: M" ++ toString code,
         "UNUSUAL_M"⟩]
     else []
   | none => [])

/-- The issues the collision phase emits for one command. -/
def collisionIssues (rz : ℚ) (n : ℕ) (inHeader : Bool) (c : List Char) :
    List ValidationIssue :=
  match paramSearch 'Z' c with
  | some new_z =>
    if !inHeader && isG01 c && decide (new_z < rz - 1/2) then
      [⟨Severity.warning, n,
        "Z moves to " ++ fmt3 new_z ++ " mm, which is below " ++
          "resume Z " ++ fmt3 rz ++ " mm. Possible collision.",
        "Z_COLLISION"⟩]
    else []
  | none => []

/-- The issues the homing phase emits for one command. -/
def homeIssues (n : ℕ) (c : List Char) : List ValidationIssue :=
  if "G28".toList.isPrefixOf c && containsSub ['Z'] c then
    [⟨Severity.error, n,
      "G28 Z detected — auto-homing Z is forbidden in resume files.",
      "Z_HOME"⟩]
  else []

/-- All issues one line contributes during the scan. -/
def stepIssues (rz : ℚ) (n : ℕ) (inHeader : Bool) (raw : String) :
    List ValidationIssue :=
  syntaxIssues n (lineCmdU raw) ++
    collisionIssues rz n inHeader (lineCmdU raw) ++ homeIssues n (lineCmdU raw)

/-- Does this line end the validator's header region? -/
def lineEndsHeader (raw : String) : Bool :=
  let stripped := pyStripL raw.toList
  (stripped.isEmpty || stripped.headD ' ' = ';') &&
    (stripped = "; --- End Resume Header ---".toList ||
      "; === Resume Print from Layer".toList.isPrefixOf stripped)

/-- The tracked Z after one line. -/
def lineNewZ (raw : String) (cur : ℚ) : ℚ :=
  match paramSearch 'Z' (lineCmdU raw) with
  | some z => if isG01 (lineCmdU raw) then z else cur
  | none => cur

/-! ## Concrete instances used by the claims -/

/-- The layer table of the spec's mapping example:
Z = `{0.3, 0.6, 0.9, 1.2}`. -/
def exLayers : List LayerInfo :=
  [⟨0, 3/10, 10, 12⟩, ⟨1, 6/10, 13, 15⟩, ⟨2, 9/10, 16, 18⟩, ⟨3, 12/10, 19, 21⟩]

/-- Mapper over `exLayers` with the default tolerance `0.15`. -/
def exMapper : LayerMapper := ⟨exLayers, 3/20, by decide⟩

/-- A mapper whose construction order is descending in layer number. -/
def exMapperRev : LayerMapper := ⟨[⟨5, 1, 0, 3⟩, ⟨3, 2, 4, 9⟩], 3/20, by decide⟩

/-- The line list of the repository's own
`test_g28_z_allowed_in_from_plate_mode` validator test. -/
def fromPlateTestLines : List String :=
  ["M140 S60", "M190 S60", "M104 S200", "M109 S200", "G28 Z",
   "G1 X10 Y10 E1.0"]

/-! # Theorems -/

/-! ## Validator scan characterization -/

theorem stepSyntax_eq (n : ℕ) (c : List Char) (st : VScan) :
    stepSyntax n c st = { st with issues := st.issues ++ syntaxIssues n c } := by
  rcases hg : gCommandMatch c with _ | g <;>
    rcases hm : mCommandMatch c with _ | m <;>
    simp only [stepSyntax, syntaxIssues, hg, hm] <;> (try split_ifs) <;> simp

theorem syntaxIssues_scanCode (n : ℕ) (c : List Char) :
    ∀ i ∈ syntaxIssues n c, scanCode i := by
  intro i hi
  simp only [syntaxIssues, List.mem_append] at hi
  rcases hi with h | h
  · rcases hg : gCommandMatch c with _ | g <;> simp only [hg] at h
    · exact absurd h (List.not_mem_nil i)
    · split_ifs at h <;>
        first
          | exact absurd h (List.not_mem_nil i)
          | (rw [List.mem_singleton] at h; subst h; left; rfl)
  · rcases hm : mCommandMatch c with _ | m <;> simp only [hm] at h
    · exact absurd h (List.not_mem_nil i)
    · split_ifs at h <;>
        first
          | exact absurd h (List.not_mem_nil i)
          | (rw [List.mem_singleton] at h; subst h; right; left; rfl)

theorem stepTemps_spec (c : List Char) (st : VScan) :
    stepTemps c st = { st with
      has_bed_temp := st.has_bed_temp || cmdSetsBed c,
      has_nozzle_temp := st.has_nozzle_temp || cmdSetsNozzle c } := by
  cases st
  rcases hs : sParamSearch c with _ | s <;>
    simp only [stepTemps, cmdSetsBed, cmdSetsNozzle, hs] <;>
    split_ifs <;> simp_all

theorem stepMovement_spec (n : ℕ) (c : List Char) (st : VScan) :
    stepMovement n c st = { st with
      current_z := (match paramSearch 'Z' c with
                    | some z => if isG01 c then z else st.current_z
                    | none => st.current_z),
      has_z_lift := st.has_z_lift || cmdIsZ c,
      first_z_line :=
        if st.has_z_lift = false ∧ cmdIsZ c then some n else st.first_z_line,
      has_xy_move := st.has_xy_move || cmdIsXY c,
      first_xy_line :=
        if st.has_xy_move = false ∧ cmdIsXY c then some n
        else st.first_xy_line } := by
  cases st
  rcases hz : paramSearch 'Z' c with _ | z <;>
    simp only [stepMovement, cmdIsZ, cmdIsXY, hz] <;>
    split_ifs <;> simp_all

theorem stepCollision_eq (rz : ℚ) (n : ℕ) (c : List Char) (st : VScan) :
    stepCollision rz n c st =
      { st with issues := st.issues ++ collisionIssues rz n st.in_header c } := by
  rcases hz : paramSearch 'Z' c with _ | z <;>
    simp only [stepCollision, collisionIssues, hz] <;> (try split_ifs) <;>
    simp_all

theorem collisionIssues_scanCode (rz : ℚ) (n : ℕ) (b : Bool) (c : List Char) :
    ∀ i ∈ collisionIssues rz n b c, scanCode i := by
  intro i hi
  simp only [collisionIssues] at hi
  rcases hz : paramSearch 'Z' c with _ | z <;> simp only [hz] at hi
  · exact absurd hi (List.not_mem_nil i)
  · split_ifs at hi <;>
      first
        | exact absurd hi (List.not_mem_nil i)
        | (rw [List.mem_singleton] at hi; subst hi; right; right; left; rfl)

theorem stepHome_eq (n : ℕ) (c : List Char) (st : VScan) :
    stepHome n c st = { st with issues := st.issues ++ homeIssues n c } := by
  simp only [stepHome, homeIssues] <;> (try split_ifs) <;> simp

theorem homeIssues_scanCode (n : ℕ) (c : List Char) :
    ∀ i ∈ homeIssues n c, scanCode i := by
  intro i hi
  simp only [homeIssues] at hi
  split_ifs at hi <;>
    first
      | exact absurd hi (List.not_mem_nil i)
      | (rw [List.mem_singleton] at hi; subst hi; right; right; right; rfl)

theorem stepIssues_scanCode (rz : ℚ) (n : ℕ) (b : Bool) (raw : String) :
    ∀ i ∈ stepIssues rz n b raw, scanCode i := by
  intro i hi
  simp only [stepIssues, List.mem_append] at hi
  rcases hi with (h | h) | h
  · exact syntaxIssues_scanCode _ _ i h
  · exact collisionIssues_scanCode _ _ _ _ i h
  · exact homeIssues_scanCode _ _ i h

theorem cmdSetsBed_nil : cmdSetsBed [] = false := rfl

theorem cmdSetsNozzle_nil : cmdSetsNozzle [] = false := rfl

theorem cmdIsZ_nil : cmdIsZ [] = false := rfl

theorem cmdIsXY_nil : cmdIsXY [] = false := rfl

theorem stepIssuesNil (rz : ℚ) (n : ℕ) (b : Bool) (raw : String)
    (h : lineCmdU raw = []) : stepIssues rz n b raw = [] := by
  simp [stepIssues, h, syntaxIssues, collisionIssues, homeIssues,
    gCommandMatch, mCommandMatch, paramSearch, homeIssues, containsSub,
    List.isPrefixOf]

theorem lineObs_nil (raw : String) (h : lineCmdU raw = []) :
    lineSetsBed raw = false ∧ lineSetsNozzle raw = false ∧
    lineIsZ raw = false ∧ lineIsXY raw = false ∧
    ∀ cur, lineNewZ raw cur = cur := by
  refine ⟨?_, ?_, ?_, ?_, fun cur => ?_⟩ <;>
    simp [lineSetsBed, lineSetsNozzle, lineIsZ, lineIsXY, lineNewZ, h,
      cmdSetsBed_nil, cmdSetsNozzle_nil, cmdIsZ_nil, cmdIsXY_nil, paramSearch]

/-- One scan step, fully characterized by the per-line observations. -/
theorem validateStep_eq (rz : ℚ) (n : ℕ) (st : VScan) (raw : String) :
    validateStep rz n st raw = { st with
      issues := st.issues ++ stepIssues rz n st.in_header raw,
      has_bed_temp := st.has_bed_temp || lineSetsBed raw,
      has_nozzle_temp := st.has_nozzle_temp || lineSetsNozzle raw,
      has_z_lift := st.has_z_lift || lineIsZ raw,
      has_xy_move := st.has_xy_move || lineIsXY raw,
      first_xy_line :=
        if st.has_xy_move = false ∧ lineIsXY raw = true then some n
        else st.first_xy_line,
      first_z_line :=
        if st.has_z_lift = false ∧ lineIsZ raw = true then some n
        else st.first_z_line,
      current_z := lineNewZ raw st.current_z,
      in_header := st.in_header && !lineEndsHeader raw } := by
  by_cases hb : ((pyStripL raw.toList).isEmpty ||
      ((pyStripL raw.toList).headD ' ' = ';' : Bool)) = true
  · have hcmd : lineCmdU raw = [] := by
      simp only [lineCmdU]; rw [if_pos hb]
    obtain ⟨h1, h2, h3, h4, h5⟩ := lineObs_nil raw hcmd
    simp only [validateStep]
    rw [if_pos hb, stepIssuesNil rz n st.in_header raw hcmd]
    simp only [h1, h2, h3, h4, h5, lineEndsHeader, Bool.or_false,
      List.append_nil, Bool.false_eq_true, and_false, if_false]
    rw [hb]
    split_ifs with e1 e2
    · cases st; simp_all
    · cases st; simp_all
    · cases st
      have e2b : ("; === Resume Print from Layer".toList.isPrefixOf
          (pyStripL raw.toList)) = false := Bool.eq_false_iff.mpr e2
      simp_all
  · have hb2 : ¬ ((pyStripL raw.toList).isEmpty ||
        ((pyStripL raw.toList).headD ' ' = ';' : Bool)) = true := hb
    have hend : lineEndsHeader raw = false := by
      have hA : ((pyStripL raw.toList).isEmpty ||
          ((pyStripL raw.toList).headD ' ' = ';' : Bool)) = false :=
        Bool.eq_false_iff.mpr hb2
      simp only [lineEndsHeader, hA, Bool.false_and]
    by_cases hc : (cmdOf (pyStripL raw.toList)).isEmpty = true
    · have hcmd : lineCmdU raw = [] := by
        simp only [lineCmdU]
        rw [if_neg hb]
        rw [List.isEmpty_iff.mp hc]
        rfl
      obtain ⟨h1, h2, h3, h4, h5⟩ := lineObs_nil raw hcmd
      simp only [validateStep]
      rw [if_neg hb, if_pos hc, stepIssuesNil rz n st.in_header raw hcmd]
      simp only [h1, h2, h3, h4, h5, hend]
      cases st <;> simp_all
    · have hcmd : lineCmdU raw = upList (cmdOf (pyStripL raw.toList)) := by
        simp only [lineCmdU]; rw [if_neg hb]
      simp only [validateStep]
      rw [if_neg hb, if_neg hc]
      rw [stepSyntax_eq, stepTemps_spec, stepMovement_spec, stepCollision_eq,
        stepHome_eq]
      simp only [stepIssues, hcmd, lineSetsBed, lineSetsNozzle, lineIsZ,
        lineIsXY, lineNewZ, hend]
      cases st
      simp_all [List.append_assoc]

theorem validateLoop_issues (rz : ℚ) (lines : List String) :
    ∀ (n : ℕ) (st : VScan),
    ∃ e, (validateLoop rz n st lines).issues = st.issues ++ e ∧
      ∀ i ∈ e, scanCode i := by
  induction lines with
  | nil => exact fun n st => ⟨[], by simp [validateLoop], by simp⟩
  | cons raw rest ih =>
    intro n st
    obtain ⟨e2, h2, hp2⟩ := ih (n + 1) (validateStep rz n st raw)
    refine ⟨stepIssues rz n st.in_header raw ++ e2, ?_, ?_⟩
    · simp only [validateLoop]
      rw [h2, validateStep_eq]
      simp [List.append_assoc]
    · intro i hi
      rcases List.mem_append.mp hi with h | h
      · exact stepIssues_scanCode rz n st.in_header raw i h
      · exact hp2 i h

theorem validateLoop_track (rz : ℚ) (lines : List String) :
    ∀ (n : ℕ) (st : VScan),
    ((validateLoop rz n st lines).has_bed_temp
        = (st.has_bed_temp || lines.any lineSetsBed)) ∧
    ((validateLoop rz n st lines).has_nozzle_temp
        = (st.has_nozzle_temp || lines.any lineSetsNozzle)) ∧
    ((validateLoop rz n st lines).has_xy_move
        = (st.has_xy_move || lines.any lineIsXY)) ∧
    ((validateLoop rz n st lines).first_xy_line
        = if st.has_xy_move = true then st.first_xy_line
          else (lines.findIdx? lineIsXY).elim st.first_xy_line
            (fun k => some (n + k))) ∧
    ((validateLoop rz n st lines).has_z_lift
        = (st.has_z_lift || lines.any lineIsZ)) ∧
    ((validateLoop rz n st lines).first_z_line
        = if st.has_z_lift = true then st.first_z_line
          else (lines.findIdx? lineIsZ).elim st.first_z_line
            (fun k => some (n + k))) := by
  induction lines with
  | nil => intro n st; simp [validateLoop]
  | cons raw rest ih =>
    intro n st
    obtain ⟨ihb, ihn, ihxy, ihfxy, ihz, ihfz⟩ :=
      ih (n + 1) (validateStep rz n st raw)
    simp only [validateLoop] at ihb ihn ihxy ihfxy ihz ihfz ⊢
    rw [ihb, ihn, ihxy, ihfxy, ihz, ihfz, validateStep_eq]
    refine ⟨by simp [Bool.or_assoc], by simp [Bool.or_assoc],
      by simp [Bool.or_assoc], ?_, by simp [Bool.or_assoc], ?_⟩
    · cases hxy : lineIsXY raw <;>
        cases hsxy : st.has_xy_move <;>
        simp [List.findIdx?_cons, hxy, hsxy, Option.elim] <;>
        cases hf : rest.findIdx? lineIsXY <;>
        simp [Option.elim, Nat.add_assoc, Nat.add_comm 1]
    · cases hz : lineIsZ raw <;>
        cases hsz : st.has_z_lift <;>
        simp [List.findIdx?_cons, hz, hsz, Option.elim] <;>
        cases hf : rest.findIdx? lineIsZ <;>
        simp [Option.elim, Nat.add_assoc, Nat.add_comm 1]

theorem validate_spec (lines : List String) (rz sl : ℚ) :
    ∃ e, (∀ i ∈ e, scanCode i) ∧
      (validate lines rz sl).issues =
        e ++
          (if lines.any lineSetsBed = true then [] else
            [⟨Severity.error, 0, "No bed temperature command found.",
              "MISSING_BED_TEMP"⟩]) ++
          (if lines.any lineSetsNozzle = true then [] else
            [⟨Severity.error, 0, "No nozzle temperature command found.",
              "MISSING_NOZZLE_TEMP"⟩]) ++
          (match lines.findIdx? lineIsXY with
           | some kx =>
             if (match lines.findIdx? lineIsZ with
                 | none => true
                 | some kz => decide (1 + kz > 1 + kx)) = true then
               [⟨Severity.error, 1 + kx,
                 "XY movement before Z lift — risk of collision.",
                 "XY_BEFORE_Z"⟩]
             else []
           | none => []) := by
  obtain ⟨e, he, hp⟩ := validateLoop_issues rz lines 1 VScan.init
  obtain ⟨hb, hn, hxy, hfxy, hz, hfz⟩ := validateLoop_track rz lines 1 VScan.init
  refine ⟨e, hp, ?_⟩
  simp only [validate]
  rw [he, hb, hn, hfxy, hfz]
  simp only [VScan.init, List.nil_append, Bool.false_or, Bool.false_eq_true,
    if_false]
  rcases hfx : lines.findIdx? lineIsXY with _ | kx
  · rcases hfzz : lines.findIdx? lineIsZ with _ | kz <;>
      simp only [hfx, hfzz, Option.elim] <;> split_ifs <;> simp_all [VScan.init]
  · have hanyxy : lines.any lineIsXY = true := by
      rw [← List.findIdx?_isSome, hfx]; rfl
    rcases hfzz : lines.findIdx? lineIsZ with _ | kz <;>
      simp only [hfx, hfzz, hanyxy, Option.elim] <;> split_ifs <;>
      (try simp_all [VScan.init]) <;> omega

/-- **C8.**  An `XY_BEFORE_Z` error is reported iff some XY-bearing `G0`/`G1`
motion command occurs and the first Z-bearing `G0`/`G1` motion command is
absent or occurs strictly after the first XY-bearing one; the error carries
`error` severity and the 1-based line number of the first XY-bearing motion
command, and no such error is reported when the first Z-bearing motion
command occurs at or before the first XY-bearing one. -/
theorem C8_movement_ordering (lines : List String) (rz sl : ℚ) :
    ((∃ i ∈ (validate lines rz sl).issues, i.code = "XY_BEFORE_Z") ↔
      ∃ kx, lines.findIdx? lineIsXY = some kx ∧
        ∀ kz, lines.findIdx? lineIsZ = some kz → kx < kz) ∧
    (∀ i ∈ (validate lines rz sl).issues, i.code = "XY_BEFORE_Z" →
      i.severity = Severity.error ∧
        (lines.findIdx? lineIsXY).map (fun k => 1 + k) = some i.line_number) := by
  obtain ⟨e, hp, hiss⟩ := validate_spec lines rz sl
  have hecode : ∀ i ∈ e, i.code ≠ "XY_BEFORE_Z" := by
    intro i hi hcontra
    rcases hp i hi with h | h | h | h <;> rw [hcontra] at h <;>
      exact absurd h (by decide)
  have hXmem : ∀ i ∈ (validate lines rz sl).issues, i.code = "XY_BEFORE_Z" →
      ∃ kx, lines.findIdx? lineIsXY = some kx ∧
        (∀ kz, lines.findIdx? lineIsZ = some kz → kx < kz) ∧
        i = ⟨Severity.error, 1 + kx,
          "XY movement before Z lift — risk of collision.", "XY_BEFORE_Z"⟩ := by
    intro i hi hcode
    rw [hiss] at hi
    rcases List.mem_append.mp hi with hi1 | hiX
    · rcases List.mem_append.mp hi1 with hi2 | hiN
      · rcases List.mem_append.mp hi2 with hiE | hiB
        · exact absurd hcode (hecode i hiE)
        · split_ifs at hiB
          · exact absurd hiB (List.not_mem_nil i)
          · rw [List.mem_singleton] at hiB
            rw [hiB] at hcode
            exact absurd hcode (by decide)
      · split_ifs at hiN
        · exact absurd hiN (List.not_mem_nil i)
        · rw [List.mem_singleton] at hiN
          rw [hiN] at hcode
          exact absurd hcode (by decide)
    · rcases hfx : lines.findIdx? lineIsXY with _ | kx <;> simp only [hfx] at hiX
      · exact absurd hiX (List.not_mem_nil i)
      · split_ifs at hiX with hcond
        · rw [List.mem_singleton] at hiX
          refine ⟨kx, rfl, ?_, hiX⟩
          intro kz hkz
          rw [hkz] at hcond
          have := of_decide_eq_true hcond
          omega
        · exact absurd hiX (List.not_mem_nil i)
  constructor
  · constructor
    · rintro ⟨i, hi, hcode⟩
      obtain ⟨kx, hfx, hlt, _⟩ := hXmem i hi hcode
      exact ⟨kx, hfx, hlt⟩
    · rintro ⟨kx, hfx, hlt⟩
      refine ⟨⟨Severity.error, 1 + kx,
        "XY movement before Z lift — risk of collision.", "XY_BEFORE_Z"⟩,
        ?_, rfl⟩
      rw [hiss]
      refine List.mem_append.mpr (Or.inr ?_)
      simp only [hfx]
      have hcond : (match lines.findIdx? lineIsZ with
          | none => true
          | some kz => decide (1 + kz > 1 + kx)) = true := by
        rcases hfzz : lines.findIdx? lineIsZ with _ | kz
        · rfl
        · simpa using Nat.add_lt_add_left (hlt kz hfzz) 1
      rw [if_pos hcond]
      exact List.mem_singleton.mpr rfl
  · intro i hi hcode
    obtain ⟨kx, hfx, _, hieq⟩ := hXmem i hi hcode
    rw [hieq, hfx]
    exact ⟨rfl, rfl⟩

/-- **C10.**  The validator's temperature-presence check recognises only
`S`-parameter targets: when no line carries a bed or nozzle heater command
with a positive `S` target (in particular when every heater command gives
its target exclusively via the `R` parameter), `validate` reports both
`MISSING_BED_TEMP` and `MISSING_NOZZLE_TEMP` errors — even though the
parser's state extraction accepts both letters, as the concrete `R`-only
document shows. -/
theorem C10_temperature_s_only (lines : List String) (rz sl : ℚ)
    (hbed : ∀ raw ∈ lines, lineSetsBed raw = false)
    (hnoz : ∀ raw ∈ lines, lineSetsNozzle raw = false) :
    (∃ i ∈ (validate lines rz sl).errors, i.code = "MISSING_BED_TEMP") ∧
    (∃ i ∈ (validate lines rz sl).errors, i.code = "MISSING_NOZZLE_TEMP") ∧
    (parseLines
      ["M140 R60", "M190 R60", "M104 R205", "M109 R205"]).state.bed_temp
        = 60 ∧
    (parseLines
      ["M140 R60", "M190 R60", "M104 R205", "M109 R205"]).state.nozzle_temp
        = 205 := by
  obtain ⟨e, hp, hiss⟩ := validate_spec lines rz sl
  have hA : lines.any lineSetsBed = false := by
    rw [List.any_eq_false]
    intro x hx
    simp [hbed x hx]
  have hB : lines.any lineSetsNozzle = false := by
    rw [List.any_eq_false]
    intro x hx
    simp [hnoz x hx]
  refine ⟨⟨⟨Severity.error, 0, "No bed temperature command found.",
      "MISSING_BED_TEMP"⟩, ?_, rfl⟩,
    ⟨⟨Severity.error, 0, "No nozzle temperature command found.",
      "MISSING_NOZZLE_TEMP"⟩, ?_, rfl⟩, by rfl, by rfl⟩ <;>
    rw [ValidationResult.errors, List.mem_filter] <;>
    refine ⟨?_, by simp⟩ <;> rw [hiss] <;> rw [hA, hB] <;> simp

/-- Witness for C10: the repository's own `R`-parameter test document. -/
theorem C10_witness :
    (∀ raw ∈ ["M140 R60", "M190 R60", "M104 R205", "M109 R205"],
        lineSetsBed raw = false) ∧
    (∃ i ∈ (validate ["M140 R60", "M190 R60", "M104 R205", "M109 R205"]
        0 10).errors, i.code = "MISSING_BED_TEMP") ∧
    (∃ i ∈ (validate ["M140 R60", "M190 R60", "M104 R205", "M109 R205"]
        0 10).errors, i.code = "MISSING_NOZZLE_TEMP") := by
  have h := C10_temperature_s_only
    ["M140 R60", "M190 R60", "M104 R205", "M109 R205"] 0 10
    (by decide) (by decide)
  exact ⟨by decide, h.1, h.2.1⟩

/-- **C1.**  `Validator.validate` takes no resume-mode argument at all
(`validate(self, lines, resume_z=0.0, safe_lift_z=10.0)`) and reports the
`Z_HOME` error for every homing command containing `Z` unconditionally.
On the exact line list of the repository's own
`test_g28_z_allowed_in_from_plate_mode` test — which calls
`validate(lines, resume_mode="from_plate")` and asserts that `Z_HOME` is
absent — the code reports a `Z_HOME` error at the `G28 Z` line and fails
the result, contradicting the claimed from-plate exemption. -/
theorem C1_z_home_unconditional :
    (validate fromPlateTestLines 0 10).errors.map
        (fun i => (i.code, i.line_number)) =
      [("Z_HOME", 5), ("XY_BEFORE_Z", 6)] ∧
    (validate fromPlateTestLines 0 10).ok = false := by
  constructor <;> rfl

/-! ## Parser scan characterization -/

theorem pstepM_track (c : List Char) (st : PScan) :
    (pstepM c st).lines = st.lines ∧
    (pstepM c st).layer_markers = st.layer_markers ∧
    (pstepM c st).layer_change_markers = st.layer_change_markers ∧
    (pstepM c st).z_changes = st.z_changes ∧
    (pstepM c st).current_z = st.current_z := by
  simp only [pstepM]
  repeat' split
  all_goals try split_ifs
  all_goals simp

theorem pstepSetHeater_track (c : List Char) (st : PScan) :
    (pstepSetHeater c st).lines = st.lines ∧
    (pstepSetHeater c st).layer_markers = st.layer_markers ∧
    (pstepSetHeater c st).layer_change_markers = st.layer_change_markers ∧
    (pstepSetHeater c st).z_changes = st.z_changes ∧
    (pstepSetHeater c st).current_z = st.current_z := by
  simp only [pstepSetHeater]
  repeat' split
  all_goals try split_ifs
  all_goals simp

theorem pstepTempWait_track (c : List Char) (st : PScan) :
    (pstepTempWait c st).lines = st.lines ∧
    (pstepTempWait c st).layer_markers = st.layer_markers ∧
    (pstepTempWait c st).layer_change_markers = st.layer_change_markers ∧
    (pstepTempWait c st).z_changes = st.z_changes ∧
    (pstepTempWait c st).current_z = st.current_z := by
  simp only [pstepTempWait]
  repeat' split
  all_goals try split_ifs
  all_goals simp

theorem pstepMacro_track (c : List Char) (st : PScan) :
    (pstepMacro c st).lines = st.lines ∧
    (pstepMacro c st).layer_markers = st.layer_markers ∧
    (pstepMacro c st).layer_change_markers = st.layer_change_markers ∧
    (pstepMacro c st).z_changes = st.z_changes ∧
    (pstepMacro c st).current_z = st.current_z := by
  simp only [pstepMacro]
  repeat' split
  all_goals try split_ifs
  all_goals simp

theorem pstepComment_track (idx : ℕ) (stripped : List Char) (st : PScan) :
    (pstepComment idx stripped st).lines = st.lines ∧
    (pstepComment idx stripped st).layer_markers = st.layer_markers ++
      (match strippedMarker stripped with
       | some n => [(idx, n)]
       | none => []) ∧
    (pstepComment idx stripped st).layer_change_markers =
      st.layer_change_markers ++
        (if strippedChange stripped = true then [idx] else []) ∧
    (pstepComment idx stripped st).z_changes = st.z_changes ∧
    (pstepComment idx stripped st).current_z = st.current_z := by
  simp only [pstepComment, strippedMarker, strippedChange]
  repeat' split
  all_goals try split_ifs
  all_goals simp_all

theorem pstepG_track (idx : ℕ) (c : List Char) (st : PScan) :
    (pstepG idx c st).lines = st.lines ∧
    (pstepG idx c st).layer_markers = st.layer_markers ∧
    (pstepG idx c st).layer_change_markers = st.layer_change_markers ∧
    (pstepG idx c st).z_changes = st.z_changes ++
      (match cmdZ c with
       | some z => if z ≠ st.current_z then [(idx, z)] else []
       | none => []) ∧
    (pstepG idx c st).current_z = (cmdZ c).getD st.current_z := by
  simp only [pstepG, cmdZ]
  repeat' split
  all_goals try split_ifs
  all_goals simp_all

/-- One parser scan step, characterized by the per-line observations
(the `state` field evolves separately and is not constrained here). -/
theorem pstep_track (idx : ℕ) (st : PScan) (raw : String) :
    (pstep idx st raw).lines
        = st.lines ++ [(⟨rstripNewlineL raw.toList⟩ : String)] ∧
    (pstep idx st raw).layer_markers = st.layer_markers ++
      (match lineMarkerNum raw with
       | some n => [(idx, n)]
       | none => []) ∧
    (pstep idx st raw).layer_change_markers = st.layer_change_markers ++
      (if lineIsChange raw = true then [idx] else []) ∧
    (pstep idx st raw).z_changes = st.z_changes ++
      (match lineZ raw with
       | some z => if z ≠ st.current_z then [(idx, z)] else []
       | none => []) ∧
    (pstep idx st raw).current_z = (lineZ raw).getD st.current_z := by
  by_cases h0 : (pyStripL (rstripNewlineL raw.toList)).isEmpty = true
  · simp only [pstep, lineMarkerNum, lineIsChange, lineZ, pstripOf]
    simp only [if_pos h0]
    simp
  · by_cases h1 : (pyStripL (rstripNewlineL raw.toList)).headD ' ' = ';'
    · obtain ⟨a, b, c, d, e⟩ := pstepComment_track idx
        (pyStripL (rstripNewlineL raw.toList)) { st with lines := st.lines ++ [(⟨rstripNewlineL raw.toList⟩ : String)] }
      simp only [pstep, lineMarkerNum, lineIsChange, lineZ, pstripOf]
      simp only [if_neg h0, if_pos h1]
      refine ⟨a, ?_, ?_, ?_, ?_⟩
      · rw [b]
      · rw [c]
      · rw [d]; simp
      · rw [e]; simp
    · by_cases h2 : (pyRstripL ((pyStripL
          (rstripNewlineL raw.toList)).takeWhile (fun c => c ≠ ';'))).isEmpty
          = true
      · simp only [pstep, lineMarkerNum, lineIsChange, lineZ, pstripOf]
        simp only [if_neg h0, if_neg h1, if_pos h2]
        simp
      · by_cases h3 : upChar ((pyStripL (rstripNewlineL raw.toList)).headD ' ')
            = 'G'
        · obtain ⟨a, b, c, d, e⟩ := pstepG_track idx
            (upList (pyRstripL ((pyStripL
            (rstripNewlineL raw.toList)).takeWhile (fun c => c ≠ ';')))) { st with lines := st.lines ++ [(⟨rstripNewlineL raw.toList⟩ : String)] }
          simp only [pstep, lineMarkerNum, lineIsChange, lineZ, pstripOf]
          simp only [if_neg h0, if_neg h1, if_neg h2, if_pos h3]
          refine ⟨a, ?_, ?_, ?_, ?_⟩
          · rw [b]; simp
          · rw [c]; simp
          · rw [d]
          · rw [e]
        · by_cases h4 : upChar ((pyStripL
              (rstripNewlineL raw.toList)).headD ' ') = 'M'
          · obtain ⟨a, b, c, d, e⟩ := pstepM_track
              (upList (pyRstripL ((pyStripL
            (rstripNewlineL raw.toList)).takeWhile (fun c => c ≠ ';')))) { st with lines := st.lines ++ [(⟨rstripNewlineL raw.toList⟩ : String)] }
            simp only [pstep, lineMarkerNum, lineIsChange, lineZ, pstripOf]
            simp only [if_neg h0, if_neg h1, if_neg h2, if_neg h3, if_pos h4]
            refine ⟨a, ?_, ?_, ?_, ?_⟩
            · rw [b]; simp
            · rw [c]; simp
            · rw [d]; simp
            · rw [e]; simp
          · by_cases h5 : "SET_HEATER_TEMPERATURE".toList.isPrefixOf
                (upList (pyRstripL ((pyStripL
            (rstripNewlineL raw.toList)).takeWhile (fun c => c ≠ ';')))) = true
            · obtain ⟨a, b, c, d, e⟩ := pstepSetHeater_track
                (upList (pyRstripL ((pyStripL
            (rstripNewlineL raw.toList)).takeWhile (fun c => c ≠ ';')))) { st with lines := st.lines ++ [(⟨rstripNewlineL raw.toList⟩ : String)] }
              simp only [pstep, lineMarkerNum, lineIsChange, lineZ, pstripOf]
              simp only [if_neg h0, if_neg h1, if_neg h2, if_neg h3, if_neg h4,
                if_pos h5]
              refine ⟨a, ?_, ?_, ?_, ?_⟩
              · rw [b]; simp
              · rw [c]; simp
              · rw [d]; simp
              · rw [e]; simp
            · by_cases h6 : "TEMPERATURE_WAIT".toList.isPrefixOf
                  (upList (pyRstripL ((pyStripL
            (rstripNewlineL raw.toList)).takeWhile (fun c => c ≠ ';')))) = true
              · obtain ⟨a, b, c, d, e⟩ := pstepTempWait_track
                  (upList (pyRstripL ((pyStripL
            (rstripNewlineL raw.toList)).takeWhile (fun c => c ≠ ';')))) { st with lines := st.lines ++ [(⟨rstripNewlineL raw.toList⟩ : String)] }
                simp only [pstep, lineMarkerNum, lineIsChange, lineZ, pstripOf]
                simp only [if_neg h0, if_neg h1, if_neg h2, if_neg h3, if_neg h4,
                  if_neg h5, if_pos h6]
                refine ⟨a, ?_, ?_, ?_, ?_⟩
                · rw [b]; simp
                · rw [c]; simp
                · rw [d]; simp
                · rw [e]; simp
              · obtain ⟨a, b, c, d, e⟩ := pstepMacro_track
                  (upList (pyRstripL ((pyStripL
            (rstripNewlineL raw.toList)).takeWhile (fun c => c ≠ ';')))) { st with lines := st.lines ++ [(⟨rstripNewlineL raw.toList⟩ : String)] }
                simp only [pstep, lineMarkerNum, lineIsChange, lineZ, pstripOf]
                simp only [if_neg h0, if_neg h1, if_neg h2, if_neg h3, if_neg h4,
                  if_neg h5, if_neg h6]
                refine ⟨a, ?_, ?_, ?_, ?_⟩
                · rw [b]; simp
                · rw [c]; simp
                · rw [d]; simp
                · rw [e]; simp

theorem parseLoop_track (lines : List String) : ∀ (idx : ℕ) (st : PScan),
    (parseLoop idx st lines).lines
        = st.lines ++ lines.map (fun r => (⟨rstripNewlineL r.toList⟩ : String)) ∧
    (parseLoop idx st lines).layer_markers
        = st.layer_markers ++ collectMarkers idx lines ∧
    (parseLoop idx st lines).layer_change_markers
        = st.layer_change_markers ++ collectChanges idx lines ∧
    (parseLoop idx st lines).z_changes
        = st.z_changes ++ zCollect st.current_z idx lines := by
  induction lines with
  | nil =>
    intro idx st
    simp [parseLoop, collectMarkers, collectChanges, zCollect]
  | cons raw rest ih =>
    intro idx st
    obtain ⟨ihl, ihm, ihc, ihz⟩ := ih (idx + 1) (pstep idx st raw)
    obtain ⟨a, b, c, d, e⟩ := pstep_track idx st raw
    simp only [parseLoop]
    refine ⟨?_, ?_, ?_, ?_⟩
    · rw [ihl, a]; simp
    · rw [ihm, b]
      rcases hm : lineMarkerNum raw with _ | n <;>
        simp [collectMarkers, hm, List.append_assoc]
    · rw [ihc, c]
      rcases hc : lineIsChange raw <;>
        simp [collectChanges, hc, List.append_assoc]
    · rw [ihz, d, e]
      rcases hz : lineZ raw with _ | z
      · simp [zCollect, hz]
      · by_cases hzc : z = st.current_z
        · simp [zCollect, hz, hzc]
        · simp [zCollect, hz, hzc]

/-- The scan over a whole document, from the initial state. -/
theorem parseScan_spec (input : List String) :
    (parseLoop 0 PScan.init input).lines
        = input.map (fun r => (⟨rstripNewlineL r.toList⟩ : String)) ∧
    (parseLoop 0 PScan.init input).layer_markers = markersOf input ∧
    (parseLoop 0 PScan.init input).layer_change_markers = changesOf input ∧
    (parseLoop 0 PScan.init input).z_changes = zChangesOf input := by
  obtain ⟨a, b, c, d⟩ := parseLoop_track input 0 PScan.init
  exact ⟨by simpa using a, by simpa using b, by simpa using c,
    by simpa using d⟩

/-! ## Layer-builder lemmas -/

theorem chainEnds_fields (total : ℕ) :
    ∀ l : List LayerInfo,
    (chainEnds total l).map (fun x => (x.number, x.z_height, x.start_line))
      = l.map (fun x => (x.number, x.z_height, x.start_line)) := by
  intro l
  induction l with
  | nil => rfl
  | cons a tl ih =>
    cases tl with
    | nil => rfl
    | cons b rest => simpa [chainEnds] using ih

theorem chainEnds_starts (total : ℕ) (l : List LayerInfo) :
    (chainEnds total l).map (fun x => x.start_line)
      = l.map (fun x => x.start_line) := by
  have h := chainEnds_fields total l
  have h2 := congrArg (List.map (fun p : ℤ × ℚ × ℕ => p.2.2)) h
  simpa [List.map_map, Function.comp] using h2

theorem chainEnds_length (total : ℕ) :
    ∀ l : List LayerInfo, (chainEnds total l).length = l.length := by
  intro l
  induction l with
  | nil => rfl
  | cons a tl ih =>
    cases tl with
    | nil => rfl
    | cons b rest => simpa [chainEnds] using ih

theorem chainEnds_ends (total : ℕ) :
    ∀ l : List LayerInfo,
    List.Chain' (fun a b => a.end_line = (b.start_line : ℤ) - 1)
      (chainEnds total l) := by
  intro l
  induction l with
  | nil => exact List.chain'_nil
  | cons a tl ih =>
    cases tl with
    | nil => simp [chainEnds]
    | cons b rest =>
      cases rest with
      | nil =>
        refine List.chain'_cons.mpr ⟨rfl, ?_⟩
        exact List.chain'_singleton _
      | cons c rest2 =>
        simp only [chainEnds] at ih ⊢
        exact List.chain'_cons.mpr ⟨rfl, ih⟩

theorem chainEnds_getLast (total : ℕ) :
    ∀ (l : List LayerInfo) (h : chainEnds total l ≠ []),
    ((chainEnds total l).getLast h).end_line = (total : ℤ) - 1 := by
  intro l
  induction l with
  | nil => intro h; simp [chainEnds] at h
  | cons a tl ih =>
    cases tl with
    | nil => intro h; simp [chainEnds]
    | cons b rest =>
      intro h
      have hne : chainEnds total (b :: rest) ≠ [] := by
        intro hc
        have hlen := chainEnds_length total (b :: rest)
        rw [hc] at hlen
        simp at hlen
      simp only [chainEnds]
      rw [List.getLast_cons hne]
      exact ih hne

theorem chainEnds_ne_nil (total : ℕ) (l : List LayerInfo) (h : l ≠ []) :
    chainEnds total l ≠ [] := by
  intro hc
  have hlen := chainEnds_length total l
  rw [hc] at hlen
  exact h (List.length_eq_zero.mp hlen.symm)

theorem collectMarkers_ge :
    ∀ (lines : List String) (i : ℕ), ∀ p ∈ collectMarkers i lines, i ≤ p.1 := by
  intro lines
  induction lines with
  | nil => intro i p hp; simp [collectMarkers] at hp
  | cons raw rest ih =>
    intro i p hp
    rw [collectMarkers] at hp
    rcases hm : lineMarkerNum raw with _ | n <;> simp only [hm] at hp
    · exact le_trans (Nat.le_succ i) (ih (i + 1) p hp)
    · rcases List.mem_cons.mp hp with h | h
      · rw [h]
      · exact le_trans (Nat.le_succ i) (ih (i + 1) p h)

theorem collectMarkers_chain :
    ∀ (lines : List String) (i : ℕ),
    List.Chain' (fun a b : ℕ × ℤ => a.1 < b.1) (collectMarkers i lines) := by
  intro lines
  induction lines with
  | nil => intro i; simp [collectMarkers]
  | cons raw rest ih =>
    intro i
    rw [collectMarkers]
    rcases hm : lineMarkerNum raw with _ | n
    · exact ih (i + 1)
    · refine List.chain'_cons'.mpr ⟨?_, ih (i + 1)⟩
      intro y hy
      have hmem := List.mem_of_mem_head? hy
      have := collectMarkers_ge rest (i + 1) y hmem
      omega

theorem collectChanges_ge :
    ∀ (lines : List String) (i : ℕ), ∀ p ∈ collectChanges i lines, i ≤ p := by
  intro lines
  induction lines with
  | nil => intro i p hp; simp [collectChanges] at hp
  | cons raw rest ih =>
    intro i p hp
    rw [collectChanges] at hp
    by_cases hc : lineIsChange raw = true <;> simp only [hc] at hp
    · rcases List.mem_cons.mp hp with h | h
      · rw [h]
      · exact le_trans (Nat.le_succ i) (ih (i + 1) p h)
    · simp only [Bool.false_eq_true, if_false] at hp
      exact le_trans (Nat.le_succ i) (ih (i + 1) p hp)

theorem collectChanges_chain :
    ∀ (lines : List String) (i : ℕ),
    List.Chain' (fun a b : ℕ => a < b) (collectChanges i lines) := by
  intro lines
  induction lines with
  | nil => intro i; simp [collectChanges]
  | cons raw rest ih =>
    intro i
    rw [collectChanges]
    by_cases hc : lineIsChange raw = true <;> simp only [hc]
    · refine List.chain'_cons'.mpr ⟨?_, ih (i + 1)⟩
      intro y hy
      have hmem := List.mem_of_mem_head? hy
      have := collectChanges_ge rest (i + 1) y hmem
      omega
    · simp only [Bool.false_eq_true, if_false]
      exact ih (i + 1)

theorem zCollect_ge :
    ∀ (lines : List String) (cur : ℚ) (i : ℕ),
    ∀ p ∈ zCollect cur i lines, i ≤ p.1 := by
  intro lines
  induction lines with
  | nil => intro cur i p hp; simp [zCollect] at hp
  | cons raw rest ih =>
    intro cur i p hp
    rw [zCollect] at hp
    rcases hz : lineZ raw with _ | z <;> simp only [hz] at hp
    · exact le_trans (Nat.le_succ i) (ih cur (i + 1) p hp)
    · by_cases hzc : z ≠ cur
      · rw [if_pos hzc] at hp
        rcases List.mem_cons.mp hp with h | h
        · rw [h]
        · exact le_trans (Nat.le_succ i) (ih z (i + 1) p h)
      · rw [if_neg hzc] at hp
        exact le_trans (Nat.le_succ i) (ih cur (i + 1) p hp)

theorem zCollect_chain :
    ∀ (lines : List String) (cur : ℚ) (i : ℕ),
    List.Chain' (fun a b : ℕ × ℚ => a.1 < b.1) (zCollect cur i lines) := by
  intro lines
  induction lines with
  | nil => intro cur i; simp [zCollect]
  | cons raw rest ih =>
    intro cur i
    rw [zCollect]
    rcases hz : lineZ raw with _ | z <;> simp only [hz]
    · exact ih cur (i + 1)
    · by_cases hzc : z ≠ cur
      · rw [if_pos hzc]
        refine List.chain'_cons'.mpr ⟨?_, ih z (i + 1)⟩
        intro y hy
        have hmem := List.mem_of_mem_head? hy
        have := zCollect_ge rest z (i + 1) y hmem
        omega
      · rw [if_neg hzc]
        exact ih cur (i + 1)

theorem chain_head_weaken {a b : ℚ} {l : List ℚ}
    (hab : b < a) (h : List.Chain (fun x y : ℚ => x < y) a l) :
    List.Chain (fun x y : ℚ => x < y) b l := by
  cases l with
  | nil => exact List.Chain.nil
  | cons c t =>
    rcases List.chain_cons.mp h with ⟨h1, h2⟩
    exact List.chain_cons.mpr ⟨lt_trans hab h1, h2⟩

theorem chain_to_chain' {α : Type} {r : α → α → Prop} {a : α} {l : List α}
    (h : List.Chain r a l) : List.Chain' r l := by
  cases l with
  | nil => exact List.chain'_nil
  | cons b t => exact (List.chain_cons.mp h).2

theorem collectMarkers_pairwise (lines : List String) (i : ℕ) :
    List.Pairwise (fun a b : ℕ × ℤ => a.1 < b.1) (collectMarkers i lines) := by
  haveI : IsTrans (ℕ × ℤ) (fun a b : ℕ × ℤ => a.1 < b.1) :=
    ⟨fun _ _ _ h1 h2 => lt_trans h1 h2⟩
  exact List.chain'_iff_pairwise.mp (collectMarkers_chain lines i)

theorem collectChanges_pairwise (lines : List String) (i : ℕ) :
    List.Pairwise (fun a b : ℕ => a < b) (collectChanges i lines) := by
  haveI : IsTrans ℕ (fun a b : ℕ => a < b) :=
    ⟨fun _ _ _ h1 h2 => lt_trans h1 h2⟩
  exact List.chain'_iff_pairwise.mp (collectChanges_chain lines i)

theorem zCollect_pairwise (lines : List String) (cur : ℚ) (i : ℕ) :
    List.Pairwise (fun a b : ℕ × ℚ => a.1 < b.1) (zCollect cur i lines) := by
  haveI : IsTrans (ℕ × ℚ) (fun a b : ℕ × ℚ => a.1 < b.1) :=
    ⟨fun _ _ _ h1 h2 => lt_trans h1 h2⟩
  exact List.chain'_iff_pairwise.mp (zCollect_chain lines cur i)

theorem zCollect_of_chain :
    ∀ (lines : List String) (cur : ℚ) (i : ℕ),
    List.Chain (fun a b : ℚ => a < b) cur ((zMovesFrom i lines).map Prod.snd) →
    zCollect cur i lines = zMovesFrom i lines := by
  intro lines
  induction lines with
  | nil => intro cur i _; rfl
  | cons raw rest ih =>
    intro cur i h
    rw [zCollect, zMovesFrom]
    rw [zMovesFrom] at h
    rcases hz : lineZ raw with _ | z <;> simp only [hz] at h ⊢
    · exact ih cur (i + 1) h
    · simp only [List.map_cons] at h
      rcases List.chain_cons.mp h with ⟨h1, h2⟩
      rw [if_pos (ne_of_gt h1)]
      rw [ih z (i + 1) h2]

theorem zLayersGo_of_chain :
    ∀ (zs : List (ℕ × ℚ)) (prev : ℚ) (num : ℕ),
    List.Chain (fun a b : ℚ => a < b) prev (zs.map Prod.snd) →
    (zLayersGo prev num zs).map (fun l => (l.z_height, l.start_line))
      = zs.map (fun p => (p.2, p.1)) := by
  intro zs
  induction zs with
  | nil => intro prev num _; rfl
  | cons p rest ih =>
    intro prev num h
    obtain ⟨li, z⟩ := p
    simp only [List.map_cons] at h
    rcases List.chain_cons.mp h with ⟨h1, h2⟩
    rw [zLayersGo, if_pos h1]
    simp only [List.map_cons, ih z (num + 1) h2]

theorem zLayersGo_starts_sublist :
    ∀ (zs : List (ℕ × ℚ)) (prev : ℚ) (num : ℕ),
    ((zLayersGo prev num zs).map (fun l => l.start_line)).Sublist
      (zs.map Prod.fst) := by
  intro zs
  induction zs with
  | nil => intro prev num; exact List.Sublist.refl _
  | cons p rest ih =>
    intro prev num
    obtain ⟨li, z⟩ := p
    rw [zLayersGo]
    by_cases h : z > prev
    · rw [if_pos h]
      simp only [List.map_cons]
      exact List.Sublist.cons₂ li (ih z (num + 1))
    · rw [if_neg h]
      simp only [List.map_cons]
      exact List.Sublist.cons li (ih prev num)

theorem changeGo_starts :
    ∀ (ms : List ℕ) (allZs : List (ℕ × ℚ)) (num : ℕ) (zs : List (ℕ × ℚ)),
    (changeGo allZs num zs ms).map (fun l => l.start_line) = ms := by
  intro ms
  induction ms with
  | nil => intro allZs num zs; rfl
  | cons m rest ih =>
    intro allZs num zs
    rw [changeGo]
    simp only [List.map_cons, ih]

theorem backfillGo_spec :
    ∀ (layers : List LayerInfo) (pre zs : List (ℕ × ℚ)),
    (∀ p ∈ pre, ∀ l ∈ layers, p.1 < l.start_line) →
    List.Pairwise (fun a b : LayerInfo => a.start_line ≤ b.start_line) layers →
    backfillGo (pre.getLast?.map Prod.snd) zs layers
      = layers.map (fun l =>
          { l with z_height := backfillSpecZ (pre ++ zs) l.start_line l.z_height }) := by
  intro layers
  induction layers with
  | nil => intro pre zs _ _; rfl
  | cons layer rest ih =>
    intro pre zs hpre hpw
    have hall : ∀ p ∈ pre, (fun q : ℕ × ℚ => decide (q.1 < layer.start_line)) p = true := by
      intro p hp
      simpa using hpre p hp layer (List.mem_cons_self layer rest)
    have hdrop := @List.dropWhile_append_of_pos _ _ pre zs hall
    have htake := @List.takeWhile_append_of_pos _ _ pre zs hall
    obtain ⟨hrel, hpw2⟩ := List.pairwise_cons.mp hpw
    simp only [backfillGo, List.map_cons]
    set t := zs.takeWhile (fun q : ℕ × ℚ => decide (q.1 < layer.start_line)) with ht
    set d := zs.dropWhile (fun q : ℕ × ℚ => decide (q.1 < layer.start_line)) with hd
    have htd : t ++ d = zs := List.takeWhile_append_dropWhile _ _
    have hpre2 : ∀ p ∈ pre ++ t, ∀ l ∈ rest, p.1 < l.start_line := by
      intro p hp l hl
      rcases List.mem_append.mp hp with hmem | hmem
      · exact hpre p hmem l (List.mem_cons_of_mem layer hl)
      · have h1 := List.mem_takeWhile_imp (ht ▸ hmem)
        have h2 := of_decide_eq_true h1
        exact lt_of_lt_of_le h2 (hrel l hl)
    have hihs := ih (pre ++ t) d hpre2 hpw2
    rw [List.append_assoc, htd] at hihs
    simp only [List.cons.injEq]
    constructor
    · simp only [backfillSpecZ, hdrop, htake, List.getLast?_append]
      rcases hh : d.head? with _ | p <;> simp only [hh]
      · rcases htl : t.getLast? with _ | q <;> simp only [htl, Option.or]
        · rcases hpl : pre.getLast? with _ | r <;> simp only [hpl, Option.map]
    · rcases htl : t.getLast? with _ | q <;> simp only [htl]
      · have h2 : (pre ++ t).getLast?.map Prod.snd = pre.getLast?.map Prod.snd := by
          rw [List.getLast?_append, htl]
          rfl
        rw [h2] at hihs
        exact hihs
      · have h2 : (pre ++ t).getLast?.map Prod.snd = some q.2 := by
          rw [List.getLast?_append, htl]
          rfl
        rw [h2] at hihs
        exact hihs

theorem backfillZ_spec (layers : List LayerInfo) (zs : List (ℕ × ℚ))
    (hpw : List.Pairwise (fun a b : LayerInfo => a.start_line ≤ b.start_line) layers) :
    backfillZ layers zs
      = layers.map (fun l =>
          { l with z_height := backfillSpecZ zs l.start_line l.z_height }) := by
  rw [backfillZ]
  by_cases hz : zs.isEmpty
  · rw [if_pos hz]
    have h0 : zs = [] := by
      cases zs with
      | nil => rfl
      | cons a l => simp [List.isEmpty] at hz
    subst h0
    have hid : ∀ l ∈ layers,
        (fun l : LayerInfo =>
          { l with z_height := backfillSpecZ [] l.start_line l.z_height }) l = id l := by
      intro l _
      simp [backfillSpecZ]
    rw [List.map_congr_left hid, List.map_id]
  · rw [if_neg hz]
    have h := backfillGo_spec layers [] zs (by intro p hp; simp at hp) hpw
    simpa using h

theorem parseLines_lines_length (input : List String) :
    (parseLines input).lines.length = input.length := by
  obtain ⟨hl, _, _, _⟩ := parseScan_spec input
  simp only [parseLines]
  simp [hl]

theorem parseLines_markers (input : List String) (h : markersOf input ≠ []) :
    (parseLines input).detection_method = "comment_layer" ∧
    (parseLines input).layers
      = backfillZ (layersFromMarkers (markersOf input) input.length)
          (zChangesOf input) := by
  obtain ⟨hl, hm, hc, hz⟩ := parseScan_spec input
  obtain ⟨a, l, hcons⟩ := List.exists_cons_of_ne_nil h
  rw [hcons] at hm ⊢
  constructor <;>
  · simp only [parseLines, hl, hm, hc, hz, List.isEmpty_cons, Bool.not_false,
      List.length_map, if_true]

theorem parseLines_changes (input : List String) (h1 : markersOf input = [])
    (h2 : changesOf input ≠ []) :
    (parseLines input).detection_method = "layer_change" ∧
    (parseLines input).layers
      = layersFromChangeMarkers (changesOf input) (zChangesOf input)
          input.length := by
  obtain ⟨hl, hm, hc, hz⟩ := parseScan_spec input
  obtain ⟨a, l, hcons⟩ := List.exists_cons_of_ne_nil h2
  rw [h1] at hm
  rw [hcons] at hc ⊢
  constructor <;>
  · simp only [parseLines, hl, hm, hc, hz, List.isEmpty_cons, List.isEmpty_nil,
      Bool.not_false, Bool.not_true, Bool.false_eq_true, List.length_map,
      if_true, if_false]

theorem parseLines_zmove (input : List String) (h1 : markersOf input = [])
    (h2 : changesOf input = []) (h3 : zChangesOf input ≠ []) :
    (parseLines input).detection_method = "z_move" ∧
    (parseLines input).layers
      = layersFromZChanges (zChangesOf input) input.length := by
  obtain ⟨hl, hm, hc, hz⟩ := parseScan_spec input
  obtain ⟨a, l, hcons⟩ := List.exists_cons_of_ne_nil h3
  rw [h1] at hm
  rw [h2] at hc
  rw [hcons] at hz ⊢
  constructor <;>
  · simp only [parseLines, hl, hm, hc, hz, List.isEmpty_cons, List.isEmpty_nil,
      Bool.not_false, Bool.not_true, Bool.false_eq_true, List.length_map,
      if_true, if_false]

theorem parseLines_none_branch (input : List String) (h1 : markersOf input = [])
    (h2 : changesOf input = []) (h3 : zChangesOf input = []) :
    (parseLines input).detection_method = "none" ∧
    (parseLines input).layers = [] := by
  obtain ⟨hl, hm, hc, hz⟩ := parseScan_spec input
  rw [h1] at hm
  rw [h2] at hc
  rw [h3] at hz
  constructor <;>
  · simp only [parseLines, hl, hm, hc, hz, List.isEmpty_nil, Bool.not_true,
      Bool.false_eq_true, List.length_map, if_false]

theorem sorted_head_le :
    ∀ (l : List LayerInfo), List.Sorted zKeyLE l → ∀ (hne : l ≠ []),
    ∀ x ∈ l, (l.head hne).z_height ≤ x.z_height := by
  intro l hs hne x hx
  cases l with
  | nil => exact absurd rfl hne
  | cons a t =>
    rcases List.mem_cons.mp hx with h | h
    · subst h
      exact le_refl _
    · exact (List.pairwise_cons.mp hs).1 x h

theorem sorted_le_getLast :
    ∀ (l : List LayerInfo), List.Sorted zKeyLE l → ∀ (hne : l ≠ []),
    ∀ x ∈ l, x.z_height ≤ (l.getLast hne).z_height := by
  intro l
  induction l with
  | nil => intro _ hne; exact absurd rfl hne
  | cons a t ih =>
    intro hs hne x hx
    cases t with
    | nil =>
      rcases List.mem_cons.mp hx with h | h
      · subst h
        exact le_refl _
      · simp at h
    | cons b t2 =>
      rw [List.getLast_cons (List.cons_ne_nil b t2)]
      rcases List.mem_cons.mp hx with h | h
      · subst h
        exact (List.pairwise_cons.mp hs).1 _
          (List.getLast_mem (List.cons_ne_nil b t2))
      · exact ih (List.pairwise_cons.mp hs).2 (List.cons_ne_nil b t2) x h

/-- C7: for every mapper (any construction ordering of a non-empty layer
list), layer_count is the number of stored layers and min_z/max_z are the
true minimum and maximum Z height over the stored layers; min_layer and
max_layer, however, are the numbers of the first and last stored layer in
construction order, not the minimum and maximum layer number. -/
theorem C7_mapper_ranges :
    (∀ m : LayerMapper,
      m.layer_count = m.layers.length ∧
      (∀ x ∈ m.layers.head?, m.min_layer = x.number) ∧
      (∀ x ∈ m.layers.getLast?, m.max_layer = x.number) ∧
      (∃ l ∈ m.layers, m.min_z = l.z_height) ∧
      (∀ l ∈ m.layers, m.min_z ≤ l.z_height) ∧
      (∃ l ∈ m.layers, m.max_z = l.z_height) ∧
      (∀ l ∈ m.layers, l.z_height ≤ m.max_z)) ∧
    exMapperRev.min_z = 1 ∧ exMapperRev.max_z = 2 := by
  refine ⟨fun m => ?_, by decide, by decide⟩
  have hperm : m.zSorted.Perm m.layers := List.perm_insertionSort zKeyLE m.layers
  have hsort : List.Sorted zKeyLE m.zSorted := List.sorted_insertionSort zKeyLE m.layers
  refine ⟨rfl, ?_, ?_, ?_, ?_, ?_, ?_⟩
  · intro x hx
    rw [List.head?_eq_head m.ne] at hx
    simp only [Option.mem_def, Option.some.injEq] at hx
    rw [← hx]
    rfl
  · intro x hx
    rw [List.getLast?_eq_getLast _ m.ne] at hx
    simp only [Option.mem_def, Option.some.injEq] at hx
    rw [← hx]
    rfl
  · exact ⟨m.zSorted.head m.zSorted_ne,
      hperm.mem_iff.mp (List.head_mem m.zSorted_ne), rfl⟩
  · intro l hl
    exact sorted_head_le m.zSorted hsort m.zSorted_ne l (hperm.mem_iff.mpr hl)
  · exact ⟨m.zSorted.getLast m.zSorted_ne,
      hperm.mem_iff.mp (List.getLast_mem m.zSorted_ne), rfl⟩
  · intro l hl
    exact sorted_le_getLast m.zSorted hsort m.zSorted_ne l (hperm.mem_iff.mpr hl)

/-- C7 counterexample: a mapper built from layers in descending number
order has min_layer 5 and max_layer 3, the first and last stored numbers,
while the minimum and maximum layer numbers are 3 and 5. -/
theorem C7_counterexample :
    exMapperRev.layers.map (fun l => l.number) = [5, 3] ∧
    exMapperRev.min_layer = 5 ∧ exMapperRev.max_layer = 3 := by
  refine ⟨by decide, by decide, by decide⟩

/-- C9 counterexample: a document whose only Z-setting move is negative is
parsed with detection method z_move and an empty layer list, so method none
is not the only empty outcome. -/
theorem C9_counterexample :
    (parseLines ["G1 Z-2"]).layers = [] ∧
    (parseLines ["G1 Z-2"]).detection_method = "z_move" := by
  exact ⟨rfl, rfl⟩

/-- C9 (amended): parsing is total by construction and malformed tokens are
treated as non-matches (a marker comment without an integer and a Z letter
without a numeral detect nothing), the method is none exactly when the scan
recorded no comment marker, no change marker and no Z change, and a none
outcome always has empty layers; but the Z-move fallback can also produce
an empty layer list, so empty layers do not imply method none. -/
theorem C9_parse_totality :
    (∀ input : List String,
      ((parseLines input).detection_method = "none" ↔
        markersOf input = [] ∧ changesOf input = [] ∧ zChangesOf input = []) ∧
      ((parseLines input).detection_method = "none" →
        (parseLines input).layers = [])) ∧
    (parseLines []).detection_method = "none" ∧
    (parseLines []).layers = [] ∧
    (parseLines [";LAYER:abc", "G1 Zxy"]).detection_method = "none" ∧
    (parseLines [";LAYER:abc", "G1 Zxy"]).layers = [] := by
  refine ⟨fun input => ?_, rfl, rfl, rfl, rfl⟩
  by_cases h1 : markersOf input = []
  · by_cases h2 : changesOf input = []
    · by_cases h3 : zChangesOf input = []
      · obtain ⟨hm, hl⟩ := parseLines_none_branch input h1 h2 h3
        exact ⟨⟨fun _ => ⟨h1, h2, h3⟩, fun _ => hm⟩, fun _ => hl⟩
      · obtain ⟨hm, _⟩ := parseLines_zmove input h1 h2 h3
        refine ⟨⟨fun hn => ?_, fun he => absurd he.2.2 h3⟩, fun hn => ?_⟩
        · rw [hm] at hn
          exact absurd hn (by decide)
        · rw [hm] at hn
          exact absurd hn (by decide)
    · obtain ⟨hm, _⟩ := parseLines_changes input h1 h2
      refine ⟨⟨fun hn => ?_, fun he => absurd he.2.1 h2⟩, fun hn => ?_⟩
      · rw [hm] at hn
        exact absurd hn (by decide)
      · rw [hm] at hn
        exact absurd hn (by decide)
  · obtain ⟨hm, _⟩ := parseLines_markers input h1
    refine ⟨⟨fun hn => ?_, fun he => absurd he.1 h1⟩, fun hn => ?_⟩
    · rw [hm] at hn
      exact absurd hn (by decide)
    · rw [hm] at hn
      exact absurd hn (by decide)

unseal Rat.mul Rat.inv Rat.add Rat.sub Rat.ofScientific in
/-- C4: for a document with no comment or change markers whose Z-setting
moves are strictly increasing (from the scanner's initial Z of 0), the
parser uses the z_move fallback and produces exactly one layer per Z move,
carrying exactly those strictly increasing Z heights; a concrete
three-line document (with a retraction-free increasing Z profile)
instantiates the hypotheses. -/
theorem C4_z_move_fallback :
    (∀ input : List String,
      markersOf input = [] → changesOf input = [] → zMovesOf input ≠ [] →
      List.Chain (fun a b : ℚ => a < b) 0 ((zMovesOf input).map Prod.snd) →
      (parseLines input).detection_method = "z_move" ∧
      (parseLines input).layers.length = (zMovesOf input).length ∧
      (parseLines input).layers.map (fun l => l.z_height)
        = (zMovesOf input).map Prod.snd ∧
      List.Chain' (fun a b : ℚ => a < b)
        ((parseLines input).layers.map (fun l => l.z_height))) ∧
    (parseLines ["G1 Z0.2", "G1 X1 Y1", "G1 Z0.4"]).detection_method
      = "z_move" ∧
    (parseLines ["G1 Z0.2", "G1 X1 Y1", "G1 Z0.4"]).layers.map
        (fun l => (l.number, l.start_line, l.z_height))
      = [(0, 0, 1/5), (1, 2, 2/5)] := by
  refine ⟨fun input h1 h2 h3 hchain => ?_, by decide, by decide⟩
  have hzz : zChangesOf input = zMovesOf input :=
    zCollect_of_chain input 0 0 hchain
  have h3z : zChangesOf input ≠ [] := by
    rw [hzz]
    exact h3
  obtain ⟨hm, hl⟩ := parseLines_zmove input h1 h2 h3z
  rw [hzz] at hl
  have hch : List.Chain (fun a b : ℚ => a < b) (-1)
      ((zMovesOf input).map Prod.snd) :=
    chain_head_weaken (by norm_num) hchain
  have hzl := zLayersGo_of_chain (zMovesOf input) (-1) 0 hch
  have hfe := chainEnds_fields input.length (zLayersGo (-1) 0 (zMovesOf input))
  have hzmap : (parseLines input).layers.map (fun l => l.z_height)
      = (zMovesOf input).map Prod.snd := by
    rw [hl]
    simp only [layersFromZChanges]
    have h2p := congrArg (List.map (fun p : ℤ × ℚ × ℕ => p.2.1)) hfe
    have h3p := congrArg (List.map (fun p : ℚ × ℕ => p.1)) hzl
    simp only [List.map_map, Function.comp] at h2p h3p
    exact h2p.trans h3p
  refine ⟨hm, ?_, hzmap, ?_⟩
  · have hlen := congrArg List.length hzmap
    simp only [List.length_map] at hlen
    exact hlen
  · rw [hzmap]
    exact chain_to_chain' hchain

theorem markers_starts (input : List String) :
    ((layersFromMarkers (markersOf input) input.length).map
        (fun x => x.start_line))
      = (markersOf input).map (fun m => m.1) := by
  simp only [layersFromMarkers]
  rw [chainEnds_starts]
  simp [List.map_map, Function.comp]

theorem markers_fields (input : List String) :
    (layersFromMarkers (markersOf input) input.length).map
        (fun x => (x.number, x.z_height, x.start_line))
      = (markersOf input).map (fun m => (m.2, (0 : ℚ), m.1)) := by
  simp only [layersFromMarkers]
  rw [chainEnds_fields]
  simp [List.map_map, Function.comp]

theorem markers_layers_pairwise (input : List String) :
    List.Pairwise (fun a b : LayerInfo => a.start_line < b.start_line)
      (layersFromMarkers (markersOf input) input.length) := by
  have hpm : List.Pairwise (fun a b : ℕ => a < b)
      ((markersOf input).map (fun m => m.1)) :=
    List.pairwise_map.mpr (collectMarkers_pairwise input 0)
  have hst := markers_starts input
  rw [← hst] at hpm
  exact List.pairwise_map.mp hpm

theorem parseLines_markers_layers (input : List String)
    (h : markersOf input ≠ []) :
    (parseLines input).layers
      = (layersFromMarkers (markersOf input) input.length).map
          (fun l => { l with z_height := (backfillSpecZ (zChangesOf input)
            l.start_line l.z_height) }) := by
  obtain ⟨_, hl⟩ := parseLines_markers input h
  rw [hl]
  exact backfillZ_spec _ _
    ((markers_layers_pairwise input).imp (fun hab => le_of_lt hab))

theorem chainEnds_getLast_end (total : ℕ) (l : List LayerInfo) :
    ∀ x ∈ (chainEnds total l).getLast?, x.end_line = (total : ℤ) - 1 := by
  intro x hx
  have hne : chainEnds total l ≠ [] := by
    intro h0
    rw [h0] at hx
    simp at hx
  rw [List.getLast?_eq_getLast _ hne] at hx
  simp only [Option.mem_def, Option.some.injEq] at hx
  rw [← hx]
  exact chainEnds_getLast total l hne

theorem chain'_start_of_map {l : List LayerInfo}
    (h : List.Chain' (fun a b : ℕ => a < b) (l.map (fun x => x.start_line))) :
    List.Chain' (fun a b : LayerInfo => a.start_line < b.start_line) l :=
  (List.chain'_map _).mp h

unseal Rat.mul Rat.inv Rat.add Rat.sub Rat.ofScientific in
/-- C5 counterexample: in this document the nearest Z-setting motion
command at or after the first marker (line 1) is line 2 with Z 0.6, yet the
parser back-fills layer 0 with 0.9, because the scan deduplicates Z moves
against the running current Z (the line-2 move repeats the current 0.6 and
is not recorded), so the back-fill sees only the changes at lines 0 and
4. -/
theorem C5_counterexample :
    (parseLines ["G1 Z0.6", ";LAYER:0", "G1 Z0.6", ";LAYER:1",
        "G1 Z0.9"]).detection_method = "comment_layer" ∧
    zMovesOf ["G1 Z0.6", ";LAYER:0", "G1 Z0.6", ";LAYER:1", "G1 Z0.9"]
      = [(0, 3/5), (2, 3/5), (4, 9/10)] ∧
    zChangesOf ["G1 Z0.6", ";LAYER:0", "G1 Z0.6", ";LAYER:1", "G1 Z0.9"]
      = [(0, 3/5), (4, 9/10)] ∧
    (parseLines ["G1 Z0.6", ";LAYER:0", "G1 Z0.6", ";LAYER:1",
        "G1 Z0.9"]).layers.map (fun l => (l.number, l.start_line, l.z_height))
      = [(0, 1, 9/10), (1, 3, 9/10)] := by
  exact ⟨by decide, by decide, by decide, by decide⟩

unseal Rat.mul Rat.inv Rat.add Rat.sub Rat.ofScientific in
/-- C5 (amended): whenever at least one `;LAYER:` comment marker is present
the parser reports exactly one layer per marker with method comment_layer,
numbered with the marker integers and starting at the marker lines in
source order; each layer's Z height is back-filled from the scan's
*recorded, deduplicated* Z changes — the first recorded change at or after
the marker, else the last recorded change before it, else 0 — which is not
always the nearest Z-setting motion command (see the counterexample). -/
theorem C5_comment_markers :
    (∀ input : List String, markersOf input ≠ [] →
      (parseLines input).detection_method = "comment_layer" ∧
      (parseLines input).layers.length = (markersOf input).length ∧
      (parseLines input).layers.map (fun l => (l.number, l.start_line))
        = (markersOf input).map (fun m => (m.2, m.1)) ∧
      (parseLines input).layers.map (fun l => l.z_height)
        = (markersOf input).map
            (fun m => backfillSpecZ (zChangesOf input) m.1 0)) ∧
    (parseLines [";LAYER:0", "G1 Z0.2", ";LAYER:1",
        "G1 Z0.4"]).detection_method = "comment_layer" ∧
    (parseLines [";LAYER:0", "G1 Z0.2", ";LAYER:1", "G1 Z0.4"]).layers.map
        (fun l => (l.number, l.start_line, l.z_height))
      = [(0, 0, 1/5), (1, 2, 2/5)] := by
  refine ⟨fun input h => ?_, by decide, by decide⟩
  obtain ⟨hm, _⟩ := parseLines_markers input h
  have hl := parseLines_markers_layers input h
  have hf := markers_fields input
  refine ⟨hm, ?_, ?_, ?_⟩
  · rw [hl]
    simp only [List.length_map, layersFromMarkers]
    rw [chainEnds_length]
    simp
  · rw [hl]
    have h1 := congrArg (List.map (fun p : ℤ × ℚ × ℕ => (p.1, p.2.2))) hf
    simp only [List.map_map, Function.comp] at h1
    simpa [List.map_map, Function.comp] using h1
  · rw [hl]
    have h2 := congrArg
      (List.map
        (fun p : ℤ × ℚ × ℕ => backfillSpecZ (zChangesOf input) p.2.2 p.2.1))
      hf
    simp only [List.map_map, Function.comp] at h2
    simpa [List.map_map, Function.comp] using h2

/-- C6: in every parse result, whichever detection strategy produced the
layers, the layers are strictly ordered by start line, each layer's end
line is one less than the next layer's start line, and the final layer's
end line is the index of the last raw line of the document. -/
theorem C6_layer_ordering (input : List String) :
    List.Chain' (fun a b : LayerInfo => a.start_line < b.start_line)
      (parseLines input).layers ∧
    List.Chain' (fun a b : LayerInfo => a.end_line = (b.start_line : ℤ) - 1)
      (parseLines input).layers ∧
    ∀ x ∈ (parseLines input).layers.getLast?,
      x.end_line = ((parseLines input).lines.length : ℤ) - 1 := by
  rw [parseLines_lines_length input]
  by_cases h1 : markersOf input = []
  · by_cases h2 : changesOf input = []
    · by_cases h3 : zChangesOf input = []
      · obtain ⟨_, hl⟩ := parseLines_none_branch input h1 h2 h3
        rw [hl]
        exact ⟨List.chain'_nil, List.chain'_nil, by simp⟩
      · obtain ⟨_, hl⟩ := parseLines_zmove input h1 h2 h3
        rw [hl]
        simp only [layersFromZChanges]
        refine ⟨?_, chainEnds_ends _ _, chainEnds_getLast_end _ _⟩
        apply chain'_start_of_map
        rw [chainEnds_starts]
        have hsub := zLayersGo_starts_sublist (zChangesOf input) (-1) 0
        have hpz : List.Pairwise (fun a b : ℕ => a < b)
            ((zChangesOf input).map Prod.fst) :=
          List.pairwise_map.mpr (zCollect_pairwise input 0 0)
        exact (List.Pairwise.sublist hsub hpz).chain'
    · obtain ⟨_, hl⟩ := parseLines_changes input h1 h2
      rw [hl]
      simp only [layersFromChangeMarkers]
      refine ⟨?_, chainEnds_ends _ _, chainEnds_getLast_end _ _⟩
      apply chain'_start_of_map
      rw [chainEnds_starts, changeGo_starts]
      exact (collectChanges_pairwise input 0).chain'
  · have hl := parseLines_markers_layers input h1
    rw [hl]
    refine ⟨?_, ?_, ?_⟩
    · apply chain'_start_of_map
      rw [List.map_map]
      have hco : ((fun x : LayerInfo => x.start_line) ∘
          (fun l : LayerInfo => { l with z_height := (backfillSpecZ
            (zChangesOf input) l.start_line l.z_height) }))
          = (fun x : LayerInfo => x.start_line) := rfl
      rw [hco, markers_starts]
      exact (List.pairwise_map.mpr (collectMarkers_pairwise input 0)).chain'
    · have hce := chainEnds_ends input.length
        ((markersOf input).map (fun m =>
          ({ number := m.2, z_height := 0, start_line := m.1 } : LayerInfo)))
      simp only [layersFromMarkers]
      exact (List.chain'_map _).mpr hce
    · intro x hx
      rw [List.getLast?_map] at hx
      rcases hly : (layersFromMarkers (markersOf input)
          input.length).getLast? with _ | y
      · rw [hly] at hx
        simp at hx
      · rw [hly] at hx
        have hmem : y ∈ (layersFromMarkers (markersOf input)
            input.length).getLast? := Option.mem_def.mpr hly
        simp only [layersFromMarkers] at hmem
        have hy := chainEnds_getLast_end input.length _ y hmem
        simp at hx
        subst hx
        exact hy

set_option maxHeartbeats 1000000 in
theorem bestGo_min (z : ℚ) :
    ∀ (l : List LayerInfo) (b : LayerInfo) (d : ℚ),
    ∃ b2 d2, bestGo z (some (b, d)) l = some (b2, d2) ∧
      |d2| ≤ |d| ∧ (∀ x ∈ l, |d2| ≤ |z - x.z_height|) ∧
      (b2 = b ∧ d2 = d ∨ b2 ∈ l ∧ d2 = z - b2.z_height) := by
  intro l
  induction l with
  | nil =>
    intro b d
    exact ⟨b, d, rfl, le_refl _, by simp, Or.inl ⟨rfl, rfl⟩⟩
  | cons layer rest ih =>
    intro b d
    rw [bestGo]
    by_cases hlt : |z - layer.z_height| < |d|
    · rw [if_pos hlt]
      obtain ⟨b2, d2, heq, hle, hall, hdisj⟩ := ih layer (z - layer.z_height)
      refine ⟨b2, d2, heq, le_trans hle (le_of_lt hlt), ?_, ?_⟩
      · intro x hx
        rcases List.mem_cons.mp hx with hxx | hxx
        · rw [hxx]
          exact hle
        · exact hall x hxx
      · rcases hdisj with ⟨hb, hd2⟩ | ⟨hm2, hd2⟩
        · refine Or.inr ⟨?_, ?_⟩
          · rw [hb]
            exact List.mem_cons_self _ _
          · rw [hb]
            exact hd2
        · exact Or.inr ⟨List.mem_cons_of_mem _ hm2, hd2⟩
    · rw [if_neg hlt]
      obtain ⟨b2, d2, heq, hle, hall, hdisj⟩ := ih b d
      refine ⟨b2, d2, heq, hle, ?_, ?_⟩
      · intro x hx
        rcases List.mem_cons.mp hx with hxx | hxx
        · rw [hxx]
          exact le_trans hle (not_lt.mp hlt)
        · exact hall x hxx
      · rcases hdisj with ⟨hb, hd2⟩ | ⟨hm2, hd2⟩
        · exact Or.inl ⟨hb, hd2⟩
        · exact Or.inr ⟨List.mem_cons_of_mem _ hm2, hd2⟩

unseal Rat.mul Rat.inv Rat.add Rat.sub Rat.ofScientific in
/-- C3: by_z_height is a trichotomy on the signed delta to the layer of
minimum absolute delta: delta exactly 0 gives an exact match with delta 0;
a nonzero delta within the (inclusive) tolerance gives a non-exact match
carrying the signed delta and the descriptive warning; a nonzero delta
beyond the tolerance gives the range error naming the nearest layer.  On
layers at Z = 0.3/0.6/0.9/1.2 with tolerance 0.15: 0.6 is exact with delta
0, 0.65 is fuzzy with delta +0.05 and the warning text, and 5.0 errors. -/
theorem C3_z_mapping_trichotomy :
    (∀ (m : LayerMapper) (z : ℚ), ∃ best bd,
      bestGo z none m.zSorted = some (best, bd) ∧
      best ∈ m.layers ∧ bd = z - best.z_height ∧
      (∀ x ∈ m.layers, |bd| ≤ |z - x.z_height|) ∧
      (bd = 0 → m.by_z_height z = Except.ok ⟨best, true, 0, none⟩) ∧
      (bd ≠ 0 → |bd| ≤ m.tolerance_mm → m.by_z_height z
        = Except.ok ⟨best, false, bd,
            some (fuzzyWarning z best bd m.tolerance_mm)⟩) ∧
      (bd ≠ 0 → m.tolerance_mm < |bd| → m.by_z_height z
        = Except.error (rangeError z best bd m.tolerance_mm))) ∧
    exMapper.by_z_height (6/10)
      = Except.ok ⟨⟨1, 6/10, 13, 15⟩, true, 0, none⟩ ∧
    exMapper.by_z_height (13/20)
      = Except.ok ⟨⟨1, 6/10, 13, 15⟩, false, 1/20,
          some "Measured Z 0.650 mm is +0.050 mm from layer 1 (Z 0.600 mm). Within tolerance (±0.15 mm) — using layer 1."⟩ ∧
    exMapper.by_z_height 5
      = Except.error "Measured Z 5.000 mm is 3.800 mm away from the nearest layer (layer 3 @ Z 1.200 mm). This exceeds the tolerance of ±0.15 mm." := by
  refine ⟨fun m z => ?_, by rfl, by rfl, by rfl⟩
  rcases hs : m.zSorted with _ | ⟨hd, tl⟩
  · exact absurd hs m.zSorted_ne
  · have h0 : bestGo z none m.zSorted
        = bestGo z (some (hd, z - hd.z_height)) tl := by
      rw [hs]
      simp [bestGo]
    obtain ⟨b2, d2, heq, hle, hall, hdisj⟩ := bestGo_min z tl hd (z - hd.z_height)
    have hmem : b2 ∈ m.zSorted := by
      rw [hs]
      rcases hdisj with ⟨hb, _⟩ | ⟨hm2, _⟩
      · rw [hb]
        exact List.mem_cons_self _ _
      · exact List.mem_cons_of_mem _ hm2
    have hbd : d2 = z - b2.z_height := by
      rcases hdisj with ⟨hb, hd2⟩ | ⟨_, hd2⟩
      · rw [hb]
        exact hd2
      · exact hd2
    have hperm : m.zSorted.Perm m.layers := List.perm_insertionSort zKeyLE m.layers
    have heq2 : bestGo z none m.zSorted = some (b2, d2) := h0.trans heq
    refine ⟨b2, d2, hs ▸ heq2, hperm.mem_iff.mp hmem, hbd, ?_, ?_, ?_, ?_⟩
    · intro x hx
      have hx2 : x ∈ m.zSorted := hperm.mem_iff.mpr hx
      rw [hs] at hx2
      rcases List.mem_cons.mp hx2 with hxx | hxx
      · rw [hxx]
        exact hle
      · exact hall x hxx
    · intro hz0
      simp only [LayerMapper.by_z_height, heq2]
      rw [if_pos hz0]
    · intro hz0 htol
      simp only [LayerMapper.by_z_height, heq2]
      rw [if_neg hz0, if_pos htol]
    · intro hz0 hgt
      simp only [LayerMapper.by_z_height, heq2]
      rw [if_neg hz0, if_neg (not_le.mpr hgt)]

unseal Rat.mul Rat.inv Rat.add Rat.sub Rat.ofScientific in
/-- C2: modelled from the spec (the generator module is absent from the
source tree): in from-plate mode `generate` emits the header followed by
every original line from the matched layer's start line through end of
document, with each motion command's Z parameter rebased by subtracting
the resume Z and rendered with three decimals; with resume Z 0.6 a body
line carrying Z0.6 is rewritten with Z0.000 and one carrying Z0.9 becomes
Z0.300. -/
theorem C2_from_plate_rebase :
    (∀ (doc : ParsedGCode) (lm : LayerMatch) (cfg : ResumeConfig),
      cfg.resume_mode = "from_plate" →
      generate doc lm cfg
        = genHeader doc lm cfg ++
            (doc.lines.drop lm.layer.start_line).map
              (rebaseLine cfg.resume_z)) ∧
    rebaseLine (6/10) "G1 X10 Y10 Z0.6 E3.0" = "G1 X10 Y10 Z0.000 E3.0" ∧
    rebaseLine (6/10) "G1 X5 Y5 Z0.9 E5.0" = "G1 X5 Y5 Z0.300 E5.0" := by
  refine ⟨fun doc lm cfg h => ?_, by decide, by decide⟩
  simp [generate, genBody, h]

end FailFixer
